import Mathlib

/-!
Verification development for the MinerU Tianshu image-relocation pipeline and
task-polling clients (`api_server.py`, `test_auto_upload_images.py`,
`test_full_oss_workflow.py`, `runpod_handler.py`, `runpod_client_complete.py`).

Python strings are modelled as `List Char`.  The concrete regular expressions
of the source are compiled by hand into deterministic scanners; for each one
the determinisation is justified in its doc comment.
-/

set_option maxHeartbeats 1000000

/-- Characters of a Python string, modelled as a list. -/
abbrev Chars := List Char

/-- Character list of a Lean string literal. -/
def cs (s : String) : Chars := s.data

/-- Split a character list at the first occurrence of `stop`: returns the
characters strictly before it and strictly after it, or `none` when `stop`
does not occur.  This models the greedy regex fragment `[^stop]*stop`
(and, with an emptiness check, `[^stop]+stop`): since the class cannot
contain `stop`, greedy matching deterministically stops at the first
occurrence. -/
def splitUntil (stop : Char) : Chars → Option (Chars × Chars)
  | [] => none
  | c :: l =>
    if c = stop then some ([], l)
    else
      match splitUntil stop l with
      | some (a, b) => some (c :: a, b)
      | none => none

theorem splitUntil_eq (stop : Char) :
    ∀ (l a b : Chars), splitUntil stop l = some (a, b) → l = a ++ stop :: b ∧ stop ∉ a := by
  intro l
  induction l with
  | nil => intro a b h; simp [splitUntil] at h
  | cons c l ih =>
    intro a b h
    by_cases hc : c = stop
    · rw [splitUntil, if_pos hc] at h
      simp only [Option.some.injEq, Prod.mk.injEq] at h
      obtain ⟨rfl, rfl⟩ := h
      simp [hc]
    · rw [splitUntil, if_neg hc] at h
      cases hsp : splitUntil stop l with
      | none => rw [hsp] at h; exact absurd h (by simp)
      | some p =>
        obtain ⟨a', b'⟩ := p
        rw [hsp] at h
        simp only [Option.some.injEq, Prod.mk.injEq] at h
        obtain ⟨rfl, hb⟩ := h
        obtain ⟨h1, h2⟩ := ih a' b' hsp
        subst hb
        subst h1
        refine ⟨by simp, ?_⟩
        simp only [List.mem_cons, not_or]
        exact ⟨fun hs => hc hs.symm, h2⟩

theorem splitUntil_mk (stop : Char) :
    ∀ (a b : Chars), stop ∉ a → splitUntil stop (a ++ stop :: b) = some (a, b) := by
  intro a
  induction a with
  | nil => intro b _; simp [splitUntil]
  | cons c a ih =>
    intro b h
    have hc : ¬ c = stop := by
      intro hc; exact h (by simp [hc])
    have hna : stop ∉ a := by
      intro hmem; exact h (by simp [hmem])
    show splitUntil stop (c :: (a ++ stop :: b)) = some (c :: a, b)
    rw [splitUntil, if_neg hc, ih b hna]

theorem splitUntil_length_lt (stop : Char) (l a b : Chars)
    (h : splitUntil stop l = some (a, b)) : b.length < l.length := by
  obtain ⟨h1, _⟩ := splitUntil_eq stop l a b h
  subst h1
  simp
  omega

/-- Drop the literal `p` from the front of `l`, returning the remainder, or
`none` when `l` does not start with `p`.  Models matching a literal string in
a regex, and Python's `str.startswith`. -/
def dropLit : Chars → Chars → Option Chars
  | [], l => some l
  | _ :: _, [] => none
  | p :: ps, c :: l => if c = p then dropLit ps l else none

theorem dropLit_eq_some :
    ∀ (p l r : Chars), dropLit p l = some r ↔ l = p ++ r := by
  intro p
  induction p with
  | nil => intro l r; simp [dropLit]
  | cons c p ih =>
    intro l r
    cases l with
    | nil => simp [dropLit]
    | cons d l =>
      by_cases hd : d = c
      · subst hd
        simp [dropLit, ih]
      · simp [dropLit, hd]

theorem dropLit_length_le (p l r : Chars) (h : dropLit p l = some r) :
    r.length ≤ l.length := by
  rw [dropLit_eq_some] at h
  subst h
  simp

example : cs "ab" = ['a', 'b'] := by decide
example : splitUntil ']' (cs "al]t(x") = some (cs "al", cs "t(x") := by decide
example : dropLit (cs "<img") (cs "<img x") = some (cs " x") := by decide


/-- The text matched by the inline-image pattern for alt text `a` and
target `t`: the regex group 0 of `!\[([^\]]*)\]\(([^)]+)\)`. -/
def mdImageText (a t : Chars) : Chars :=
  '!' :: '[' :: (a ++ ']' :: '(' :: (t ++ [')']))

/-- Match the inline-image regex `!\[([^\]]*)\]\(([^)]+)\)` of
`api_server.process_markdown_images` and the extraction helpers at the head
of the input, returning (alt text, target, remainder) on success.  The regex
is deterministic: `[^\]]*` greedily stops at the first `]`, and `[^)]+`
(non-empty) greedily stops at the first `)`. -/
def matchMdImage (l : Chars) : Option (Chars × Chars × Chars) :=
  (dropLit (cs "![") l).bind fun rest =>
  (splitUntil ']' rest).bind fun p1 =>
  (dropLit (cs "(") p1.2).bind fun rest2 =>
  (splitUntil ')' rest2).bind fun p2 =>
  if p2.1.isEmpty then none else some (p1.1, p2.1, p2.2)

theorem dropLit_self_append (p l : Chars) : dropLit p (p ++ l) = some l :=
  (dropLit_eq_some p (p ++ l) l).mpr rfl

theorem matchMdImage_eq (l a t r : Chars) (h : matchMdImage l = some (a, t, r)) :
    l = mdImageText a t ++ r ∧ ']' ∉ a ∧ ')' ∉ t ∧ t ≠ [] := by
  simp only [matchMdImage, Option.bind_eq_some] at h
  obtain ⟨rest, h0, p1, h1, rest2, h2, p2, h3, h4⟩ := h
  by_cases hemp : p2.1.isEmpty
  · rw [if_pos hemp] at h4; exact absurd h4 (by simp)
  · rw [if_neg hemp] at h4
    simp only [Option.some.injEq, Prod.mk.injEq] at h4
    obtain ⟨e1, e2, e3⟩ := h4
    obtain ⟨alt, rest1⟩ := p1
    obtain ⟨target, rest3⟩ := p2
    simp only at e1 e2 e3 hemp
    subst e1 e2 e3
    rw [dropLit_eq_some] at h0 h2
    obtain ⟨f1, m1⟩ := splitUntil_eq ']' rest alt rest1 h1
    obtain ⟨f3, m3⟩ := splitUntil_eq ')' rest2 target rest3 h3
    subst h0 h2 f1 f3
    refine ⟨?_, m1, m3, by simpa [List.isEmpty_iff] using hemp⟩
    simp [mdImageText, cs]

theorem matchMdImage_mk (a t r : Chars) (ha : ']' ∉ a) (ht : ')' ∉ t) (hne : t ≠ []) :
    matchMdImage (mdImageText a t ++ r) = some (a, t, r) := by
  have e0 : mdImageText a t ++ r = cs "![" ++ (a ++ ']' :: ('(' :: (t ++ ')' :: r))) := by
    simp [mdImageText, cs]
  have e2 : ('(' :: (t ++ ')' :: r) : Chars) = cs "(" ++ (t ++ ')' :: r) := rfl
  rw [matchMdImage, e0]
  simp only [dropLit_self_append, Option.some_bind, splitUntil_mk ']' a _ ha, e2,
    splitUntil_mk ')' t r ht]
  simp [List.isEmpty_iff, hne]

theorem matchMdImage_rest_lt (l a t r : Chars) (h : matchMdImage l = some (a, t, r)) :
    r.length < l.length := by
  obtain ⟨e, _⟩ := matchMdImage_eq l a t r h
  subst e
  simp [mdImageText]
  omega

/-- Generic fuelled `re.finditer`-style scanner: try the matcher `M` at every
position, left to right, restarting after the end of each match.  The fuel
only makes the recursion structural; any fuel at least the length of the
scanned text computes the scan. -/
def scanF (M : Chars → Option (α × Chars)) : Nat → Chars → List α
  | 0, _ => []
  | _ + 1, [] => []
  | fuel + 1, c :: tl =>
    match M (c :: tl) with
    | some (a, r) => a :: scanF M fuel r
    | none => scanF M fuel tl

/-- Generic scanner with enough fuel for its input. -/
def scan (M : Chars → Option (α × Chars)) (l : Chars) : List α :=
  scanF M l.length l

/-- Generic fuelled scanner that also reports each match's start position. -/
def scanPF (M : Chars → Option (α × Chars)) : Nat → Chars → Nat → List (Nat × α)
  | 0, _, _ => []
  | _ + 1, [], _ => []
  | fuel + 1, c :: tl, pos =>
    match M (c :: tl) with
    | some (a, r) => (pos, a) :: scanPF M fuel r (pos + ((c :: tl).length - r.length))
    | none => scanPF M fuel tl (pos + 1)

/-- Position-reporting scanner with enough fuel for its input. -/
def scanP (M : Chars → Option (α × Chars)) (l : Chars) (pos : Nat) : List (Nat × α) :=
  scanPF M l.length l pos

/-- A matcher shortens its input strictly past the match. -/
def MatcherShrinks (M : Chars → Option (α × Chars)) : Prop :=
  ∀ l a r, M l = some (a, r) → r.length < l.length

theorem scanF_nil (M : Chars → Option (α × Chars)) (fuel : Nat) : scanF M fuel [] = [] := by
  cases fuel <;> rfl

theorem scanPF_nil (M : Chars → Option (α × Chars)) (fuel pos : Nat) :
    scanPF M fuel [] pos = [] := by
  cases fuel <;> rfl

theorem scanF_congr {M : Chars → Option (α × Chars)} (hM : MatcherShrinks M) :
    ∀ (fuel fuel' : Nat) (l : Chars), l.length ≤ fuel → l.length ≤ fuel' →
      scanF M fuel l = scanF M fuel' l := by
  intro fuel
  induction fuel with
  | zero =>
    intro fuel' l hl _
    have : l = [] := List.length_eq_zero.mp (Nat.le_zero.mp hl)
    subst this
    rw [scanF_nil, scanF_nil]
  | succ fuel ih =>
    intro fuel' l hl hl'
    cases l with
    | nil => rw [scanF_nil, scanF_nil]
    | cons c tl =>
      cases fuel' with
      | zero => simp at hl'
      | succ fuel' =>
        show (match M (c :: tl) with
          | some (a, r) => a :: scanF M fuel r
          | none => scanF M fuel tl) =
          (match M (c :: tl) with
          | some (a, r) => a :: scanF M fuel' r
          | none => scanF M fuel' tl)
        cases hm : M (c :: tl) with
        | some p =>
          obtain ⟨a, r⟩ := p
          have hr := hM _ _ _ hm
          simp only
          rw [ih fuel' r (by simp at hl hr ⊢; omega) (by simp at hl' hr ⊢; omega)]
        | none =>
          simp only
          exact ih fuel' tl (by simp at hl ⊢; omega) (by simp at hl' ⊢; omega)

theorem scan_cons {M : Chars → Option (α × Chars)} (hM : MatcherShrinks M)
    (c : Char) (tl : Chars) :
    scan M (c :: tl) =
      match M (c :: tl) with
      | some (a, r) => a :: scan M r
      | none => scan M tl := by
  show (match M (c :: tl) with
    | some (a, r) => a :: scanF M tl.length r
    | none => scanF M tl.length tl) = _
  cases hm : M (c :: tl) with
  | some p =>
    obtain ⟨a, r⟩ := p
    have hr := hM _ _ _ hm
    simp only
    rw [scanF_congr hM tl.length r.length r (by simp at hr ⊢; omega) le_rfl]
    rfl
  | none => simp only; rfl

theorem scanPF_congr {M : Chars → Option (α × Chars)} (hM : MatcherShrinks M) :
    ∀ (fuel fuel' : Nat) (l : Chars) (pos : Nat), l.length ≤ fuel → l.length ≤ fuel' →
      scanPF M fuel l pos = scanPF M fuel' l pos := by
  intro fuel
  induction fuel with
  | zero =>
    intro fuel' l pos hl _
    have : l = [] := List.length_eq_zero.mp (Nat.le_zero.mp hl)
    subst this
    rw [scanPF_nil, scanPF_nil]
  | succ fuel ih =>
    intro fuel' l pos hl hl'
    cases l with
    | nil => rw [scanPF_nil, scanPF_nil]
    | cons c tl =>
      cases fuel' with
      | zero => simp at hl'
      | succ fuel' =>
        show (match M (c :: tl) with
          | some (a, r) => (pos, a) :: scanPF M fuel r (pos + ((c :: tl).length - r.length))
          | none => scanPF M fuel tl (pos + 1)) =
          (match M (c :: tl) with
          | some (a, r) => (pos, a) :: scanPF M fuel' r (pos + ((c :: tl).length - r.length))
          | none => scanPF M fuel' tl (pos + 1))
        cases hm : M (c :: tl) with
        | some p =>
          obtain ⟨a, r⟩ := p
          have hr := hM _ _ _ hm
          simp only
          rw [ih fuel' r _ (by simp at hl hr ⊢; omega) (by simp at hl' hr ⊢; omega)]
        | none =>
          simp only
          exact ih fuel' tl _ (by simp at hl ⊢; omega) (by simp at hl' ⊢; omega)

theorem scanP_cons {M : Chars → Option (α × Chars)} (hM : MatcherShrinks M)
    (c : Char) (tl : Chars) (pos : Nat) :
    scanP M (c :: tl) pos =
      match M (c :: tl) with
      | some (a, r) => (pos, a) :: scanP M r (pos + ((c :: tl).length - r.length))
      | none => scanP M tl (pos + 1) := by
  show (match M (c :: tl) with
    | some (a, r) => (pos, a) :: scanPF M tl.length r (pos + ((c :: tl).length - r.length))
    | none => scanPF M tl.length tl (pos + 1)) = _
  cases hm : M (c :: tl) with
  | some p =>
    obtain ⟨a, r⟩ := p
    have hr := hM _ _ _ hm
    simp only
    rw [scanPF_congr hM tl.length r.length r _ (by simp at hr ⊢; omega) le_rfl]
    rfl
  | none => simp only; rfl

theorem scanF_eq_map_scanPF (M : Chars → Option (α × Chars)) :
    ∀ (fuel : Nat) (l : Chars) (pos : Nat),
      scanF M fuel l = (scanPF M fuel l pos).map Prod.snd := by
  intro fuel
  induction fuel with
  | zero => intro l pos; rfl
  | succ fuel ih =>
    intro l pos
    cases l with
    | nil => rfl
    | cons c tl =>
      show (match M (c :: tl) with
        | some (a, r) => a :: scanF M fuel r
        | none => scanF M fuel tl) =
        (match M (c :: tl) with
        | some (a, r) => (pos, a) :: scanPF M fuel r (pos + ((c :: tl).length - r.length))
        | none => scanPF M fuel tl (pos + 1)).map Prod.snd
      cases hm : M (c :: tl) with
      | some p =>
        obtain ⟨a, r⟩ := p
        simp only
        rw [List.map_cons, ih]
      | none =>
        simp only
        exact ih tl (pos + 1)

theorem scan_eq_map_scanP (M : Chars → Option (α × Chars)) (l : Chars) (pos : Nat) :
    scan M l = (scanP M l pos).map Prod.snd :=
  scanF_eq_map_scanPF M l.length l pos

theorem scanPF_pos_le (M : Chars → Option (α × Chars)) :
    ∀ (fuel : Nat) (l : Chars) (pos : Nat) (x : Nat × α),
      x ∈ scanPF M fuel l pos → pos ≤ x.1 := by
  intro fuel
  induction fuel with
  | zero => intro l pos x hx; simp [scanPF] at hx
  | succ fuel ih =>
    intro l pos x hx
    cases l with
    | nil => rw [scanPF_nil] at hx; simp at hx
    | cons c tl =>
      revert hx
      show x ∈ (match M (c :: tl) with
        | some (a, r) => (pos, a) :: scanPF M fuel r (pos + ((c :: tl).length - r.length))
        | none => scanPF M fuel tl (pos + 1)) → pos ≤ x.1
      cases hm : M (c :: tl) with
      | some p =>
        obtain ⟨a, r⟩ := p
        intro hx
        simp only [List.mem_cons] at hx
        cases hx with
        | inl h => subst h; exact le_rfl
        | inr h => exact le_trans (Nat.le_add_right _ _) (ih _ _ _ h)
      | none =>
        intro hx
        exact le_trans (Nat.le_succ _) (ih _ _ _ hx)

theorem scanPF_pairwise {M : Chars → Option (α × Chars)} (hM : MatcherShrinks M) :
    ∀ (fuel : Nat) (l : Chars) (pos : Nat),
      (scanPF M fuel l pos).Pairwise (fun (x y : Nat × α) => x.1 < y.1) := by
  intro fuel
  induction fuel with
  | zero => intro l pos; simp [scanPF]
  | succ fuel ih =>
    intro l pos
    cases l with
    | nil => rw [scanPF_nil]; simp
    | cons c tl =>
      show (match M (c :: tl) with
        | some (a, r) => (pos, a) :: scanPF M fuel r (pos + ((c :: tl).length - r.length))
        | none => scanPF M fuel tl (pos + 1)).Pairwise (fun (x y : Nat × α) => x.1 < y.1)
      cases hm : M (c :: tl) with
      | some p =>
        obtain ⟨a, r⟩ := p
        have hr := hM _ _ _ hm
        simp only
        refine List.pairwise_cons.mpr ⟨?_, ih _ _⟩
        intro y hy
        have hge := scanPF_pos_le M fuel r _ y hy
        have hcons : 1 ≤ (c :: tl).length - r.length := by
          simp at hr ⊢
          omega
        simp only
        omega
      | none => exact ih tl (pos + 1)

/-- The document-order scan of inline images: ordered (alt, target) pairs. -/
def mdImageMatcher (l : Chars) : Option ((Chars × Chars) × Chars) :=
  (matchMdImage l).map fun x => ((x.1, x.2.1), x.2.2)

theorem mdImageMatcher_shrinks : MatcherShrinks mdImageMatcher := by
  intro l a r h
  cases hm : matchMdImage l with
  | none => rw [mdImageMatcher, hm] at h; exact absurd h (by simp)
  | some x =>
    obtain ⟨x1, x2, x3⟩ := x
    rw [mdImageMatcher, hm] at h
    simp only [Option.map_some', Option.some.injEq, Prod.mk.injEq] at h
    obtain ⟨rfl, rfl⟩ := h
    exact matchMdImage_rest_lt l x1 x2 x3 hm

/-- All inline-image references `![alt](target)` of a markup, in document
order, as (alt text, target) pairs (the `md_pattern` loop of
`extract_image_urls`). -/
def scanMdImages (l : Chars) : List (Chars × Chars) :=
  scan mdImageMatcher l

example : scanMdImages (cs "x ![a](i.png) ![](j) ![b](k)?") =
    [(cs "a", cs "i.png"), (cs "", cs "j"), (cs "b", cs "k")] := by decide
example : scanMdImages (cs "![a]() ![b") = [] := by decide

/-- ASCII whitespace recognized by Python's regex `\s`. -/
def isSpaceChar (c : Char) : Bool :=
  c == ' ' || c == '\t' || c == '\n' || c == '\r' || c == '\x0b' || c == '\x0c'

/-- Match the regex fragment `\s+` followed by a literal that starts with a
non-whitespace character: the greedy run must be maximal (backtracking to a
shorter run puts a whitespace character where the literal's non-whitespace
first character is required), so the fragment deterministically consumes the
maximal whitespace run, requiring at least one character. -/
def matchSpacesPlus (l : Chars) : Option Chars :=
  match l with
  | [] => none
  | c :: tl => if isSpaceChar c then some (tl.dropWhile isSpaceChar) else none

theorem dropWhile_length_le (p : Char → Bool) :
    ∀ l : Chars, (l.dropWhile p).length ≤ l.length := by
  intro l
  induction l with
  | nil => simp [List.dropWhile]
  | cons c tl ih =>
    rw [List.dropWhile]
    cases hc : p c
    · simp
    · simp only
      simp
      omega

theorem matchSpacesPlus_lt (l r : Chars) (h : matchSpacesPlus l = some r) :
    r.length < l.length := by
  match l with
  | [] => simp [matchSpacesPlus] at h
  | c :: tl =>
    rw [matchSpacesPlus] at h
    by_cases hc : isSpaceChar c
    · rw [if_pos hc] at h
      simp only [Option.some.injEq] at h
      subst h
      have := dropWhile_length_le isSpaceChar tl
      simp
      omega
    · rw [if_neg hc] at h; exact absurd h (by simp)

/-- The optional group `(?:\s+alt="([^"]*)")?` of the raw-tag regex, tried
greedily: maximal whitespace run, then the literal `alt="`, then the alt text
up to the closing quote. -/
def matchAltGroup (l : Chars) : Option (Chars × Chars) :=
  (matchSpacesPlus l).bind fun r1 =>
  (dropLit (cs "alt=\"") r1).bind fun r2 =>
  splitUntil '"' r2

theorem matchAltGroup_lt (l : Chars) (p : Chars × Chars) (h : matchAltGroup l = some p) :
    p.2.length < l.length := by
  simp only [matchAltGroup, Option.bind_eq_some] at h
  obtain ⟨r1, h1, r2, h2, h3⟩ := h
  obtain ⟨alt, r3⟩ := p
  have := matchSpacesPlus_lt l r1 h1
  have := dropLit_length_le _ r1 r2 h2
  have := splitUntil_length_lt '"' r2 alt r3 h3
  simp at *
  omega

/-- Match the raw-tag regex `<img\s+src="([^"]+)"(?:\s+alt="([^"]*)")?[^>]*>`
of `extract_image_urls` at the head of the input, returning
(src, alt text, remainder); a missing alt group yields the empty alt text
(the Python code's `match.group(2) or ""`).  Determinisation: the two `\s+`
runs are maximal (the following literals start with non-whitespace), `[^"]+`
and `[^"]*` stop at the first quote, and `[^>]*>` consumes exactly up to the
first `>`.  The one genuine backtracking choice is the optional alt group:
it is tried first, and if no `>` follows it, the regex engine retries
without it. -/
def matchImgTag (l : Chars) : Option (Chars × Chars × Chars) :=
  (dropLit (cs "<img") l).bind fun r0 =>
  (matchSpacesPlus r0).bind fun r1 =>
  (dropLit (cs "src=\"") r1).bind fun r2 =>
  (splitUntil '"' r2).bind fun p =>
  if p.1.isEmpty then none
  else
    match matchAltGroup p.2 with
    | some (alt, r4) =>
      (match splitUntil '>' r4 with
      | some (_, r5) => some (p.1, alt, r5)
      | none =>
        match splitUntil '>' p.2 with
        | some (_, r5) => some (p.1, [], r5)
        | none => none)
    | none =>
      match splitUntil '>' p.2 with
      | some (_, r5) => some (p.1, [], r5)
      | none => none

theorem matchImgTag_rest_lt (l s a r : Chars) (h : matchImgTag l = some (s, a, r)) :
    r.length < l.length := by
  simp only [matchImgTag, Option.bind_eq_some] at h
  obtain ⟨r0, h0, r1, h1, r2, h2, p, h3, h4⟩ := h
  obtain ⟨src, r3⟩ := p
  have l0 : r0.length < l.length := by
    rw [dropLit_eq_some] at h0
    subst h0
    simp [cs]
    omega
  have l1 := matchSpacesPlus_lt r0 r1 h1
  have l2 := dropLit_length_le _ r1 r2 h2
  have l3 := splitUntil_length_lt '"' r2 src r3 h3
  have key : r.length < r3.length := by
    simp only at h4
    split at h4
    · exact absurd h4 (by simp)
    · split at h4
      next alt r4 hag =>
        have l4 := matchAltGroup_lt r3 (alt, r4) hag
        split at h4
        next junk r5 h5 =>
          simp only [Option.some.injEq, Prod.mk.injEq] at h4
          obtain ⟨-, -, rfl⟩ := h4
          have := splitUntil_length_lt '>' r4 junk r5 h5
          simp at l4
          omega
        next h5 =>
          split at h4
          next junk r5 h6 =>
            simp only [Option.some.injEq, Prod.mk.injEq] at h4
            obtain ⟨-, -, rfl⟩ := h4
            exact splitUntil_length_lt '>' r3 junk r5 h6
          next => exact absurd h4 (by simp)
      next hag =>
        split at h4
        next junk r5 h6 =>
          simp only [Option.some.injEq, Prod.mk.injEq] at h4
          obtain ⟨-, -, rfl⟩ := h4
          exact splitUntil_length_lt '>' r3 junk r5 h6
        next => exact absurd h4 (by simp)
  omega

/-- The raw-tag matcher in scanner form, emitting (alt text, src) pairs in
the order `extract_image_urls` appends them. -/
def imgTagMatcher (l : Chars) : Option ((Chars × Chars) × Chars) :=
  (matchImgTag l).map fun x => ((x.2.1, x.1), x.2.2)

theorem imgTagMatcher_shrinks : MatcherShrinks imgTagMatcher := by
  intro l a r h
  cases hm : matchImgTag l with
  | none => rw [imgTagMatcher, hm] at h; exact absurd h (by simp)
  | some x =>
    obtain ⟨x1, x2, x3⟩ := x
    rw [imgTagMatcher, hm] at h
    simp only [Option.map_some', Option.some.injEq, Prod.mk.injEq] at h
    obtain ⟨rfl, rfl⟩ := h
    exact matchImgTag_rest_lt l x1 x2 x3 hm

/-- All raw-tag image references `<img src="..." ...>` of a markup, in
document order, as (alt text, src) pairs (the `html_pattern` loop of
`extract_image_urls`). -/
def scanImgTags (l : Chars) : List (Chars × Chars) :=
  scan imgTagMatcher l

example : scanImgTags (cs "a <img src=\"u.png\" alt=\"t\"> b <img src=\"v\" class=\"x\">") =
    [(cs "t", cs "u.png"), (cs "", cs "v")] := by decide
example : scanImgTags (cs "<img src=\"u\" alt=\"a>b\"") = [(cs "", cs "u")] := by decide
example : scanImgTags (cs "<imgx src=\"u\">") = [] := by decide
example : scanImgTags (cs "<img src=\"\">") = [] := by decide

example : scanImgTags (cs "<img src=\"u\" alt=\"a>b\">") = [(cs "a>b", cs "u")] := by decide
example : scanImgTags (cs "<img src=\"u\"alt=\"z\">") = [(cs "", cs "u")] := by decide

/-- Python's `url.startswith(('http://', 'https://'))`. -/
def startsHttp (u : Chars) : Bool :=
  (dropLit (cs "http://") u).isSome || (dropLit (cs "https://") u).isSome

/-- The `extract_image_urls` function of `test_auto_upload_images.py` (and
the identical inline code of `test_full_oss_workflow.download_images_to_local`):
first all raw-tag references, then all inline-image references whose target
starts with `http://` or `https://`, each group in document order. -/
def extract_image_urls (md : Chars) : List (Chars × Chars) :=
  scanImgTags md ++ (scanMdImages md).filter (fun p => startsHttp p.2)

/-- Insertion into a position-sorted list of matches. -/
def insertByPos (x : Nat × Chars × Chars) :
    List (Nat × Chars × Chars) → List (Nat × Chars × Chars)
  | [] => [x]
  | y :: tl => if x.1 ≤ y.1 then x :: y :: tl else y :: insertByPos x tl

/-- Insertion sort of matches by start position. -/
def sortByPos : List (Nat × Chars × Chars) → List (Nat × Chars × Chars)
  | [] => []
  | x :: tl => insertByPos x (sortByPos tl)

/-- Extraction as the specification describes it (for comparison with
`extract_image_urls`): all image references of both syntaxes as
(altText, target) pairs, in document order of their match positions,
duplicates preserved. -/
def specExtractImageRefs (md : Chars) : List (Chars × Chars) :=
  (sortByPos (scanP imgTagMatcher md 0 ++ scanP mdImageMatcher md 0)).map Prod.snd

/-- C1, amended: extraction returns all raw-tag references (in document
order) followed by all inline-image references whose target starts with
`http://` or `https://` (in document order); inline references with other
targets are omitted, and the two syntax groups are not interleaved by
document position.  Duplicates are preserved (the scans keep every match). -/
theorem C1_extract_grouped_by_syntax (md : Chars) :
    extract_image_urls md
      = (scanP imgTagMatcher md 0).map Prod.snd
        ++ (((scanP mdImageMatcher md 0).map Prod.snd).filter (fun p => startsHttp p.2))
    ∧ (scanP imgTagMatcher md 0).Pairwise (fun x y => x.1 < y.1)
    ∧ (scanP mdImageMatcher md 0).Pairwise (fun x y => x.1 < y.1) := by
  refine ⟨?_, scanPF_pairwise imgTagMatcher_shrinks _ _ _,
    scanPF_pairwise mdImageMatcher_shrinks _ _ _⟩
  rw [extract_image_urls, scanImgTags, scanMdImages,
    scan_eq_map_scanP imgTagMatcher md 0, scan_eq_map_scanP mdImageMatcher md 0]

/-- C1, counterexample: on a markup with one inline-image reference before
one raw-tag reference, extraction returns the raw-tag pair first, not the
document order; and on a markup whose single inline-image reference has a
relative target, extraction returns zero pairs instead of one. -/
theorem C1_counterexample :
    extract_image_urls (cs "![a](http://u/x.png) <img src=\"http://u/y.png\" alt=\"b\">")
      ≠ specExtractImageRefs (cs "![a](http://u/x.png) <img src=\"http://u/y.png\" alt=\"b\">")
    ∧ (specExtractImageRefs (cs "![a](images/b.png)")).length = 1
    ∧ (extract_image_urls (cs "![a](images/b.png)")).length = 0 := by
  exact ⟨by decide, by decide, by decide⟩

/-- Lowercasing, as Python's `str.lower` on ASCII configuration strings. -/
def charsLower (l : Chars) : Chars := l.map Char.toLower

/-- The MinIO / Tencent COS storage backend configuration
(`api_server.MinioStorage`). -/
structure MinioStorage where
  endpoint : Chars
  access_key : Chars
  secret_key : Chars
  bucket : Chars
  secure : Bool
deriving DecidableEq

/-- `MinioStorage.get_url`: the path-style URL
`{scheme}://{endpoint}/{object_name}`; note the bucket does not appear. -/
def MinioStorage.get_url (s : MinioStorage) (object_name : Chars) : Chars :=
  (if s.secure then cs "https://" else cs "http://") ++ s.endpoint ++ '/' :: object_name

/-- The Aliyun OSS storage backend configuration (`api_server.OSSStorage`). -/
structure OSSStorage where
  endpoint : Chars
  access_key : Chars
  secret_key : Chars
  bucket_name : Chars
deriving DecidableEq

/-- `OSSStorage.get_url`: the virtual-hosted-style URL
`https://{bucket}.{endpoint}/{object_name}`. -/
def OSSStorage.get_url (s : OSSStorage) (object_name : Chars) : Chars :=
  cs "https://" ++ s.bucket_name ++ '.' :: s.endpoint ++ '/' :: object_name

/-- One of the configured storage backends of `api_server.py`. -/
inductive StorageBackend where
  | minio (s : MinioStorage)
  | oss (s : OSSStorage)
deriving DecidableEq

/-- URL resolution dispatched to the configured backend; `upload_file`
returns exactly `get_url object_name` on success in both backends. -/
def StorageBackend.get_url : StorageBackend → Chars → Chars
  | .minio s, o => s.get_url o
  | .oss s, o => s.get_url o

/-- Splitting on a separator character, keeping empty components
(Python's `str.split(sep)` for a one-character separator). -/
def splitOnChar (sep : Char) (l : Chars) : List Chars :=
  match l with
  | [] => [[]]
  | c :: tl =>
    match splitOnChar sep tl with
    | [] => [[]]
    | h :: t => if c = sep then [] :: h :: t else (c :: h) :: t

/-- `PurePosixPath(p).name`: the last path component after dropping empty
and `.` components (pathlib's parsing); `..` is kept as a name. -/
def basenameChars (p : Chars) : Chars :=
  (((splitOnChar '/' p).filter (fun c => ¬(c = [] ∨ c = ['.']))).getLast?).getD []

/-- Index of the last occurrence of a character (`str.rfind`), if any. -/
def rfindIdx (ch : Char) : Chars → Option Nat
  | [] => none
  | c :: tl =>
    match rfindIdx ch tl with
    | some i => some (i + 1)
    | none => if c = ch then some 0 else none

/-- `PurePosixPath(name).suffix` on a base name: the part from the last dot,
when that dot is neither the first nor the last character; else empty. -/
def suffixChars (name : Chars) : Chars :=
  match rfindIdx '.' name with
  | some i => if 0 < i ∧ i < name.length - 1 then name.drop i else []
  | none => []

example : basenameChars (cs "a/b/c.png") = cs "c.png" := by decide
example : basenameChars (cs "/images/x.png") = cs "x.png" := by decide
example : suffixChars (cs "c.png") = cs ".png" := by decide
example : suffixChars (cs ".png") = [] := by decide
example : suffixChars (cs "a.") = [] := by decide
example : suffixChars (cs "noext") = [] := by decide

/-- Model of `uuid.uuid4()` in `replace_image`: the source draws a fresh
identifier per call; modelled as an injective supply indexed by the number
of draws already made during the surrounding `re.sub`. -/
def genUuid (n : Nat) : Chars := cs "uuid-" ++ (Nat.repr n).data

/-- The raw-tag text `<img src="{url}" alt="{alt}">` produced by
`replace_image` on a successful upload (and matched/rewritten by the
reverse pass). -/
def imgTagText (src alt : Chars) : Chars :=
  cs "<img src=\"" ++ src ++ cs "\" alt=\"" ++ alt ++ cs "\">"

/-- Environment of the forward relocation: the filesystem and the uploader.
`existsFile b` models `(image_dir / Path(target).name).exists()` on the base
name `b` (the image directory is fixed for one call and absorbed here); it
may raise, which escapes `replace_image`'s inner try.  `uploadOk b obj`
models whether `storage_backend.upload_file` on that file and object key
succeeds; its failure is caught inside `replace_image`. -/
structure FwdEnv where
  existsFile : Chars → Except Unit Bool
  uploadOk : Chars → Chars → Bool

/-- `replace_image` of `process_markdown_images`, in continuation style:
given one match (alt text, target) and the uuid index `n`, check existence of
the target's base name in the image directory, draw the uuid key
`images/{uuid}{ext}`, upload, and emit `<img src="{url}" alt="{alt}">`;
keep the original matched text on a missing file or a failed upload.  The
continuation `k` rewrites the remainder of the text given the next uuid
index; a raising filesystem check escapes as an error. -/
def fwdStep (bk : StorageBackend) (env : FwdEnv) (alt target : Chars) (n : Nat)
    (k : Nat → Except Unit (Chars × Nat × List Chars)) :
    Except Unit (Chars × Nat × List Chars) :=
  match env.existsFile (basenameChars target) with
  | .error e => .error e
  | .ok true =>
    let b := basenameChars target
    let obj := cs "images/" ++ genUuid n ++ suffixChars b
    if env.uploadOk b obj then
      match k (n + 1) with
      | .ok (out, n', ups) => .ok (imgTagText (bk.get_url obj) alt ++ out, n', obj :: ups)
      | .error e => .error e
    else
      match k (n + 1) with
      | .ok (out, n', ups) => .ok (mdImageText alt target ++ out, n', ups)
      | .error e => .error e
  | .ok false =>
    match k n with
    | .ok (out, n', ups) => .ok (mdImageText alt target ++ out, n', ups)
    | .error e => .error e

/-- Fuelled worker for the `re.sub(img_pattern, replace_image, md_content)`
pass of `process_markdown_images`: walk the text, applying `fwdStep` at each
match of the inline-image pattern and copying unmatched characters.  Returns
the rewritten text, the next uuid index, and the object keys uploaded, or an
error when a filesystem check raises. -/
def fwdSubF (bk : StorageBackend) (env : FwdEnv) :
    Nat → Chars → Nat → Except Unit (Chars × Nat × List Chars)
  | 0, l, n => .ok (l, n, [])
  | _ + 1, [], n => .ok ([], n, [])
  | fuel + 1, c :: tl, n =>
    match matchMdImage (c :: tl) with
    | some (alt, target, rest) =>
      fwdStep bk env alt target n (fun m => fwdSubF bk env fuel rest m)
    | none =>
      match fwdSubF bk env fuel tl n with
      | .ok (out, n', ups) => .ok (c :: out, n', ups)
      | .error e => .error e

/-- The `re.sub` rewriting pass with enough fuel for its input. -/
def fwdSub (bk : StorageBackend) (env : FwdEnv) (md : Chars) (n : Nat) :
    Except Unit (Chars × Nat × List Chars) :=
  fwdSubF bk env md.length md n

/-- `api_server.process_markdown_images(md_content, image_dir, upload_images)`:
returns the markup unchanged when uploading is not requested or no storage
backend is configured; otherwise runs the rewriting pass, falling back to the
original markup when an exception escapes it.  The second component is the
list of object keys uploaded (instrumentation for the theorems; the source
returns only the text). -/
def process_markdown_images (upload_images : Bool) (backend : Option StorageBackend)
    (env : FwdEnv) (md : Chars) : Chars × List Chars :=
  if upload_images = false then (md, [])
  else
    match backend with
    | none => (md, [])
    | some bk =>
      match fwdSub bk env md 0 with
      | .ok (out, _, ups) => (out, ups)
      | .error _ => (md, [])

theorem fwdStep_congr (bk : StorageBackend) (env : FwdEnv) (alt target : Chars) (n : Nat)
    (k k' : Nat → Except Unit (Chars × Nat × List Chars)) (hk : ∀ m, k m = k' m) :
    fwdStep bk env alt target n k = fwdStep bk env alt target n k' := by
  unfold fwdStep
  cases env.existsFile (basenameChars target) with
  | error e => rfl
  | ok b =>
    cases b with
    | false => simp only; rw [hk n]
    | true => simp only; rw [hk (n + 1)]

theorem fwdSubF_nil (bk : StorageBackend) (env : FwdEnv) (fuel n : Nat) :
    fwdSubF bk env fuel [] n = .ok ([], n, []) := by
  cases fuel <;> rfl

theorem fwdSubF_congr (bk : StorageBackend) (env : FwdEnv) :
    ∀ (fuel fuel' : Nat) (l : Chars) (n : Nat), l.length ≤ fuel → l.length ≤ fuel' →
      fwdSubF bk env fuel l n = fwdSubF bk env fuel' l n := by
  intro fuel
  induction fuel with
  | zero =>
    intro fuel' l n hl _
    have : l = [] := List.length_eq_zero.mp (Nat.le_zero.mp hl)
    subst this
    rw [fwdSubF_nil, fwdSubF_nil]
  | succ fuel ih =>
    intro fuel' l n hl hl'
    cases l with
    | nil => rw [fwdSubF_nil, fwdSubF_nil]
    | cons c tl =>
      cases fuel' with
      | zero => simp at hl'
      | succ fuel' =>
        show (match matchMdImage (c :: tl) with
          | some (alt, target, rest) =>
            fwdStep bk env alt target n (fun m => fwdSubF bk env fuel rest m)
          | none =>
            match fwdSubF bk env fuel tl n with
            | .ok (out, n', ups) => .ok (c :: out, n', ups)
            | .error e => .error e) =
          (match matchMdImage (c :: tl) with
          | some (alt, target, rest) =>
            fwdStep bk env alt target n (fun m => fwdSubF bk env fuel' rest m)
          | none =>
            match fwdSubF bk env fuel' tl n with
            | .ok (out, n', ups) => .ok (c :: out, n', ups)
            | .error e => .error e)
        cases hm : matchMdImage (c :: tl) with
        | some p =>
          obtain ⟨alt, target, rest⟩ := p
          have hr := matchMdImage_rest_lt _ _ _ _ hm
          simp only
          exact fwdStep_congr bk env alt target n _ _
            (fun m => ih fuel' rest m (by simp at hl hr ⊢; omega) (by simp at hl' hr ⊢; omega))
        | none =>
          simp only
          rw [ih fuel' tl n (by simp at hl ⊢; omega) (by simp at hl' ⊢; omega)]

theorem fwdSub_cons (bk : StorageBackend) (env : FwdEnv) (c : Char) (tl : Chars) (n : Nat) :
    fwdSub bk env (c :: tl) n =
      match matchMdImage (c :: tl) with
      | some (alt, target, rest) =>
        fwdStep bk env alt target n (fun m => fwdSub bk env rest m)
      | none =>
        match fwdSub bk env tl n with
        | .ok (out, n', ups) => .ok (c :: out, n', ups)
        | .error e => .error e := by
  show (match matchMdImage (c :: tl) with
    | some (alt, target, rest) =>
      fwdStep bk env alt target n (fun m => fwdSubF bk env tl.length rest m)
    | none =>
      match fwdSubF bk env tl.length tl n with
      | .ok (out, n', ups) => .ok (c :: out, n', ups)
      | .error e => .error e) = _
  cases hm : matchMdImage (c :: tl) with
  | some p =>
    obtain ⟨alt, target, rest⟩ := p
    have hr := matchMdImage_rest_lt _ _ _ _ hm
    simp only
    exact fwdStep_congr bk env alt target n _ _
      (fun m => fwdSubF_congr bk env tl.length rest.length rest m
        (by simp at hr ⊢; omega) le_rfl)
  | none => simp only; rfl

theorem fwdSub_match_step (bk : StorageBackend) (env : FwdEnv) (a t r : Chars) (n : Nat)
    (ha : ']' ∉ a) (ht : ')' ∉ t) (hne : t ≠ []) :
    fwdSub bk env (mdImageText a t ++ r) n =
      fwdStep bk env a t n (fun m => fwdSub bk env r m) := by
  have hc := fwdSub_cons bk env '!' (('[' :: (a ++ ']' :: '(' :: (t ++ [')']))) ++ r) n
  rw [show ('!' :: ((('[' :: (a ++ ']' :: '(' :: (t ++ [')']))) ++ r) : Chars))
      = mdImageText a t ++ r by simp [mdImageText]] at hc
  rw [hc, matchMdImage_mk a t r ha ht hne]

theorem fwdSub_no_match (bk : StorageBackend) (env : FwdEnv) :
    ∀ (l : Chars) (n : Nat), scanMdImages l = [] → fwdSub bk env l n = .ok (l, n, []) := by
  intro l
  induction l with
  | nil => intro n _; exact fwdSubF_nil bk env 0 n
  | cons c tl ih =>
    intro n hscan
    rw [scanMdImages, scan_cons mdImageMatcher_shrinks] at hscan
    cases hm : mdImageMatcher (c :: tl) with
    | some p => rw [hm] at hscan; simp at hscan
    | none =>
      rw [hm] at hscan
      simp only at hscan
      have hmm : matchMdImage (c :: tl) = none := by
        cases hmi : matchMdImage (c :: tl) with
        | none => rfl
        | some q => rw [mdImageMatcher, hmi] at hm; exact absurd hm (by simp)
      rw [fwdSub_cons, hmm]
      simp only
      rw [ih n hscan]

/-- C4, amended: the forward relocation of `process_markdown_images`
recognizes only the inline-image syntax `![alt](target)`: on any markup with
no inline-image match — in particular a markup whose image references are
all raw `<img>` tags — it uploads nothing and returns the markup unchanged,
whatever files exist locally. -/
theorem C4_forward_ignores_raw_tags (bk : StorageBackend) (env : FwdEnv) (md : Chars)
    (h : scanMdImages md = []) :
    process_markdown_images true (some bk) env md = (md, []) := by
  rw [process_markdown_images, if_neg (by simp)]
  show (match fwdSub bk env md 0 with
    | .ok (out, _, ups) => (out, ups)
    | .error _ => (md, [])) = (md, [])
  rw [fwdSub_no_match bk env md 0 h]

/-- An environment where every file exists and every upload succeeds. -/
def envAllOk : FwdEnv := ⟨fun _ => .ok true, fun _ _ => true⟩

/-- A sample MinIO backend configuration. -/
def bkSample : StorageBackend := .minio ⟨cs "ep.example", cs "ak", cs "sk", cs "bkt", true⟩

/-- C4, witness for the amended theorem at a concrete markup whose only
image reference is a raw tag. -/
theorem C4_forward_ignores_raw_tags_witness :
    process_markdown_images true (some bkSample) envAllOk
      (cs "<img src=\"pic.png\" alt=\"a\">") = (cs "<img src=\"pic.png\" alt=\"a\">", []) :=
  C4_forward_ignores_raw_tags bkSample envAllOk _ (by decide)

/-- C4, counterexample: a markup containing one raw-tag image reference
whose file exists locally (every file exists in `envAllOk`), on which
forward relocation uploads nothing and rewrites nothing — the reference is
recognized by the extraction grammar but not by forward relocation. -/
theorem C4_counterexample :
    process_markdown_images true (some bkSample) envAllOk
        (cs "<img src=\"pic.png\" alt=\"a\">") = (cs "<img src=\"pic.png\" alt=\"a\">", [])
    ∧ scanImgTags (cs "<img src=\"pic.png\" alt=\"a\">") = [(cs "a", cs "pic.png")] := by
  exact ⟨by decide, by decide⟩

/-- C5: in forward relocation, a reference whose target file does not exist
locally, and a reference whose upload fails, each contribute exactly their
original matched text to the output, while the remainder of the markup is
still processed exactly as it would be on its own (same rewritten tail, same
uploaded keys) — a single failure never aborts the batch.  A failed upload
still consumes the drawn uuid (it is generated before the upload attempt). -/
theorem C5_failed_reference_left_unmodified (bk : StorageBackend) (env : FwdEnv)
    (a t r : Chars) (n n' : Nat) (out : Chars) (ups : List Chars)
    (ha : ']' ∉ a) (ht : ')' ∉ t) (hne : t ≠ []) :
    (env.existsFile (basenameChars t) = .ok false →
      fwdSub bk env r n = .ok (out, n', ups) →
      fwdSub bk env (mdImageText a t ++ r) n = .ok (mdImageText a t ++ out, n', ups))
    ∧ (env.existsFile (basenameChars t) = .ok true →
      env.uploadOk (basenameChars t)
        (cs "images/" ++ genUuid n ++ suffixChars (basenameChars t)) = false →
      fwdSub bk env r (n + 1) = .ok (out, n', ups) →
      fwdSub bk env (mdImageText a t ++ r) n = .ok (mdImageText a t ++ out, n', ups)) := by
  constructor
  · intro hex hrest
    rw [fwdSub_match_step bk env a t r n ha ht hne, fwdStep, hex]
    simp only
    rw [hrest]
  · intro hex hup hrest
    rw [fwdSub_match_step bk env a t r n ha ht hne, fwdStep, hex]
    simp only
    rw [if_neg (by rw [hup]; simp), hrest]

deriving instance DecidableEq for Except

/-- An environment where only the file `x.png` exists and uploads succeed. -/
def envOnlyX : FwdEnv := ⟨fun b => .ok (decide (b = cs "x.png")), fun _ _ => true⟩

/-- C5, witness: in a markup whose first reference targets a missing file
and whose second targets an existing one, the first is left verbatim and the
second is still uploaded and rewritten. -/
theorem C5_failed_reference_left_unmodified_witness :
    fwdSub bkSample envOnlyX (mdImageText (cs "a") (cs "gone.png")
        ++ mdImageText (cs "b") (cs "x.png")) 0
      = .ok (mdImageText (cs "a") (cs "gone.png")
          ++ imgTagText (bkSample.get_url (cs "images/uuid-0.png")) (cs "b"), 1,
          [cs "images/uuid-0.png"]) :=
  (C5_failed_reference_left_unmodified bkSample envOnlyX (cs "a") (cs "gone.png")
      (mdImageText (cs "b") (cs "x.png")) 0 1 _ _
      (by decide) (by decide) (by decide)).1 (by decide) (by decide)

/-- An environment whose filesystem check itself raises. -/
def envRaise : FwdEnv := ⟨fun _ => .error (), fun _ _ => true⟩

/-- C10: the image-processing step of the status query is atomic on the
text: with `upload_images` false it is the identity (and uploads nothing);
when the rewriting pass raises, the original markup is returned; and in
every case the returned text is either the untouched input or the complete
output of a successful rewriting pass — never a partially rewritten text. -/
theorem C10_image_processing_atomic (backend : Option StorageBackend) (env : FwdEnv)
    (md : Chars) :
    process_markdown_images false backend env md = (md, [])
    ∧ (∀ bk, backend = some bk → ∀ e, fwdSub bk env md 0 = .error e →
        process_markdown_images true backend env md = (md, []))
    ∧ ((process_markdown_images true backend env md).1 = md
       ∨ ∃ bk out n ups, backend = some bk ∧ fwdSub bk env md 0 = .ok (out, n, ups)
           ∧ process_markdown_images true backend env md = (out, ups)) := by
  refine ⟨rfl, ?_, ?_⟩
  · rintro bk rfl e he
    rw [process_markdown_images, if_neg (by simp)]
    show (match fwdSub bk env md 0 with
      | .ok (out, _, ups) => (out, ups)
      | .error _ => (md, [])) = (md, [])
    rw [he]
  · cases backend with
    | none => left; rfl
    | some bk =>
      rw [process_markdown_images, if_neg (by simp)]
      show ((match fwdSub bk env md 0 with
        | .ok (out, _, ups) => (out, ups)
        | .error _ => (md, [])) : Chars × List Chars).1 = md ∨ _
      cases hf : fwdSub bk env md 0 with
      | error e => left; rfl
      | ok p =>
        obtain ⟨out, n, ups⟩ := p
        right
        exact ⟨bk, out, n, ups, rfl, hf, rfl⟩

/-- C10, witness: with uploading off the markup is returned unchanged, and
when the filesystem check raises mid-pass the original markup is returned. -/
theorem C10_image_processing_atomic_witness :
    process_markdown_images false (some bkSample) envRaise (cs "![a](x.png)")
      = (cs "![a](x.png)", [])
    ∧ process_markdown_images true (some bkSample) envRaise (cs "![a](x.png)")
      = (cs "![a](x.png)", []) :=
  ⟨(C10_image_processing_atomic (some bkSample) envRaise (cs "![a](x.png)")).1,
   (C10_image_processing_atomic (some bkSample) envRaise (cs "![a](x.png)")).2.1
     bkSample rfl () (by decide)⟩

/-- Fuelled worker for Python's `str.replace(pat, rep)`: replace every
non-overlapping occurrence of `pat`, left to right.  An empty pattern is
not used by the source and is treated as no replacement. -/
def replaceAllF (pat rep : Chars) : Nat → Chars → Chars
  | 0, l => l
  | _ + 1, [] => []
  | fuel + 1, c :: tl =>
    match dropLit pat (c :: tl) with
    | some rest => if pat.isEmpty then c :: tl else rep ++ replaceAllF pat rep fuel rest
    | none => c :: replaceAllF pat rep fuel tl

/-- Python's `str.replace(pat, rep)` with enough fuel for its input. -/
def replaceAll (pat rep l : Chars) : Chars :=
  replaceAllF pat rep l.length l

example : replaceAll (cs "](u)") (cs "](v)") (cs "a ](u) b ](u)") = cs "a ](v) b ](v)" := by
  decide
example : replaceAll (cs "aa") (cs "b") (cs "aaa") = cs "ba" := by decide
example : replaceAll (cs "x") (cs "y") (cs "abc") = cs "abc" := by decide

/-- The remainder of an absolute http(s) URL after its scheme. -/
def schemeRest (url : Chars) : Option Chars :=
  (dropLit (cs "https://") url).orElse (fun _ => dropLit (cs "http://") url)

/-- A character that does not end the netloc: `urlsplit` delimits the
netloc at the first `/`, `?` or `#`. -/
def notNetlocEnd (c : Char) : Bool := ¬(c = '/' ∨ c = '?' ∨ c = '#')

/-- The text after the last `@` of a netloc (Python's
`netloc.rpartition('@')[2]`; the whole text when there is no `@`). -/
def afterLastAt (l : Chars) : Chars :=
  (l.reverse.takeWhile (fun c => ¬(c = '@'))).reverse

/-- Hostname of a netloc as `urlparse().hostname` computes it for the
netlocs reachable here: strip the userinfo up to the last `@`, drop the
port from the first `:`, and lowercase.  (A bracketed IPv6 literal, which
recent CPython validates and otherwise rejects, is outside this model; the
round-trip theorem excludes `[` from the configuration.) -/
def hostOfNetloc (netloc : Chars) : Chars :=
  charsLower ((afterLastAt netloc).takeWhile (fun c => ¬(c = ':')))

/-- `urlparse(url).hostname or ''`: empty for a URL without an http(s)
scheme; otherwise the hostname of the netloc (the text between the scheme
and the first `/`, `?` or `#`), userinfo and port stripped, lowercased. -/
def urlHostname (url : Chars) : Chars :=
  match schemeRest url with
  | some rest => hostOfNetloc (rest.takeWhile notNetlocEnd)
  | none => []

/-- The part of a path before its last `/`-separated segment (including the
final `/`), and that last segment. -/
def beforeLastSeg (p : Chars) : Chars :=
  (p.reverse.dropWhile (fun c => ¬(c = '/'))).reverse

/-- The last `/`-separated segment of a path (the whole path when it has no
`/`). -/
def lastSeg (p : Chars) : Chars :=
  (p.reverse.takeWhile (fun c => ¬(c = '/'))).reverse

/-- `urlparse` splits `;params` off the last path segment (`_splitparams`:
cut at the first `;` after the last `/`). -/
def stripParams (p : Chars) : Chars :=
  beforeLastSeg p ++ (lastSeg p).takeWhile (fun c => ¬(c = ';'))

/-- `urlparse(url).path`: for an absolute http(s) URL, the part after the
netloc up to the query or fragment; for a scheme-less reference, the text
up to the query or fragment; in both cases with `;params` split off the
last segment. -/
def urlPath (url : Chars) : Chars :=
  stripParams (match schemeRest url with
    | some rest => (rest.dropWhile notNetlocEnd).takeWhile (fun c => ¬(c = '?' ∨ c = '#'))
    | none => url.takeWhile (fun c => ¬(c = '?' ∨ c = '#')))

example : urlHostname (cs "https://B.oss-x.com/k/e?q=1") = cs "b.oss-x.com" := by decide
example : urlHostname (cs "https://user@H.example:9000/k") = cs "h.example" := by decide
example : urlHostname (cs "https://a@b@c.d/p") = cs "c.d" := by decide
example : urlHostname (cs "https://h?q/zz") = cs "h" := by decide
example : urlPath (cs "https://b.oss-x.com/k/e?q=1") = cs "/k/e" := by decide
example : urlPath (cs "https://h/a;p") = cs "/a" := by decide
example : urlPath (cs "https://h/a;p/c") = cs "/a;p/c" := by decide
example : urlPath (cs "https://h?q/zz") = [] := by decide
example : urlHostname (cs "images/f.png") = [] := by decide
example : urlPath (cs "images/f.png") = cs "images/f.png" := by decide

/-- Python's `str.endswith` for a literal suffix. -/
def endsWithChars (suf l : Chars) : Bool :=
  (dropLit suf.reverse l.reverse).isSome

/-- Format `n` in at least three digits (Python's `f"{n:03d}"` for
non-negative `n`). -/
def pad3 (n : Nat) : Chars :=
  let s := (Nat.repr n).data
  if s.length < 3 then List.replicate (3 - s.length) '0' ++ s else s

/-- The local file name the reverse pass derives for one image URL
(`download_images_from_storage`, lines 237-247): the base name of the URL
path, or — when that is empty or contains `?` — a sequential name
`image_{count:03d}` with an extension guessed from the URL's ending. -/
def deriveFilename (url : Chars) (cnt : Nat) : Chars :=
  let filename := basenameChars (urlPath url)
  if filename = [] ∨ '?' ∈ filename then
    let ext :=
      if endsWithChars (cs ".jpg") url || endsWithChars (cs ".jpeg") url then cs ".jpg"
      else if endsWithChars (cs ".png") url then cs ".png"
      else if endsWithChars (cs ".gif") url then cs ".gif"
      else cs ".png"
    cs "image_" ++ pad3 cnt ++ ext
  else filename

example : deriveFilename (cs "https://b.oss-x.com/images/f.png") 0 = cs "f.png" := by decide
example : deriveFilename (cs "https://b.oss-x.com/") 2 = cs "image_002.png" := by decide
example : deriveFilename (cs "https://h/a/b.jpg?sig=1") 0 = cs "b.jpg" := by decide

/-- Environment of the reverse relocation: whether downloading a given URL
succeeds (covering both the authenticated OSS-SDK path and the plain HTTP
path of `download_images_from_storage`; a download that raises has the same
effect on the text and the count as a failed one, since the per-image
`except` clause only logs). -/
structure RevEnv where
  downloadOk : Chars → Bool

/-- The per-image loop of `download_images_from_storage` /
`download_images_to_local`: for each extracted (alt, url) pair, derive the
local file name; on a successful download rewrite every occurrence of
`<img src="{url}"` to `<img src="images/{filename}"` and of `]({url})` to
`](images/{filename})`, and increment the counter. -/
def revLoop (env : RevEnv) : List (Chars × Chars) → Chars → Nat → Chars × Nat
  | [], content, cnt => (content, cnt)
  | (_, url) :: rest, content, cnt =>
    let filename := deriveFilename url cnt
    if env.downloadOk url then
      let localPath := cs "images/" ++ filename
      let c1 := replaceAll (cs "<img src=\"" ++ url ++ [ '"' ])
        (cs "<img src=\"" ++ localPath ++ [ '"' ]) content
      let c2 := replaceAll (']' :: '(' :: (url ++ [')'])) (']' :: '(' :: (localPath ++ [')'])) c1
      revLoop env rest c2 (cnt + 1)
    else
      revLoop env rest content cnt

/-- `download_images_from_storage(session, md_content, output_dir)` of
`test_auto_upload_images.py` (and the identical
`download_images_to_local` of `test_full_oss_workflow.py`): extract the
image URLs, download each, rewrite the links of the successful ones to
local paths, and return the rewritten text with the count of successful
downloads. -/
def download_images_from_storage (env : RevEnv) (md : Chars) : Chars × Nat :=
  let image_urls := extract_image_urls md
  if image_urls.isEmpty then (md, 0)
  else revLoop env image_urls md 0

theorem revLoop_count_le (env : RevEnv) :
    ∀ (urls : List (Chars × Chars)) (content : Chars) (cnt : Nat),
      cnt ≤ (revLoop env urls content cnt).2 := by
  intro urls
  induction urls with
  | nil => intro content cnt; exact le_rfl
  | cons p rest ih =>
    intro content cnt
    obtain ⟨alt, url⟩ := p
    by_cases hdl : env.downloadOk url
    · simp only [revLoop, if_pos hdl]
      exact le_trans (Nat.le_succ cnt) (ih _ (cnt + 1))
    · simp only [revLoop, if_neg hdl]
      exact ih content cnt

theorem revLoop_count_eq_imp (env : RevEnv) :
    ∀ (urls : List (Chars × Chars)) (content : Chars) (cnt : Nat),
      (revLoop env urls content cnt).2 = cnt → (revLoop env urls content cnt).1 = content := by
  intro urls
  induction urls with
  | nil => intro content cnt _; rfl
  | cons p rest ih =>
    intro content cnt h
    obtain ⟨alt, url⟩ := p
    by_cases hdl : env.downloadOk url
    · exfalso
      simp only [revLoop, if_pos hdl] at h
      have h2 := revLoop_count_le env rest
        (replaceAll (']' :: '(' :: (url ++ [')']))
          (']' :: '(' :: ((cs "images/" ++ deriveFilename url cnt) ++ [')']))
          (replaceAll (cs "<img src=\"" ++ url ++ ['"'])
            (cs "<img src=\"" ++ (cs "images/" ++ deriveFilename url cnt) ++ ['"']) content))
        (cnt + 1)
      omega
    · simp only [revLoop, if_neg hdl] at h ⊢
      exact ih content cnt h

theorem revLoop_all_fail (env : RevEnv) :
    ∀ (urls : List (Chars × Chars)) (content : Chars) (cnt : Nat),
      (∀ p ∈ urls, env.downloadOk p.2 = false) →
      revLoop env urls content cnt = (content, cnt) := by
  intro urls
  induction urls with
  | nil => intro content cnt _; rfl
  | cons p rest ih =>
    intro content cnt hall
    obtain ⟨alt, url⟩ := p
    have hdl : env.downloadOk url = false := hall (alt, url) (by simp)
    simp only [revLoop, if_neg (by rw [hdl]; simp : ¬env.downloadOk url = true)]
    exact ih content cnt (fun q hq => hall q (by simp [hq]))

/-- C3: reverse relocation returns the rewritten text together with the
count of successful downloads; whenever that count is zero — in particular
when there are no image references, and when every download fails — the
returned text is exactly the input markup. -/
theorem C3_zero_success_is_identity (env : RevEnv) (md : Chars) :
    ((download_images_from_storage env md).2 = 0 →
      (download_images_from_storage env md).1 = md)
    ∧ ((∀ p ∈ extract_image_urls md, env.downloadOk p.2 = false) →
      download_images_from_storage env md = (md, 0)) := by
  by_cases he : (extract_image_urls md).isEmpty
  · have e : download_images_from_storage env md = (md, 0) := by
      unfold download_images_from_storage
      rw [if_pos he]
    rw [e]
    exact ⟨fun _ => rfl, fun _ => rfl⟩
  · have e : download_images_from_storage env md
        = revLoop env (extract_image_urls md) md 0 := by
      unfold download_images_from_storage
      rw [if_neg he]
    rw [e]
    exact ⟨revLoop_count_eq_imp env _ md 0, revLoop_all_fail env _ md 0⟩

/-- An environment where every download fails. -/
def envNoDl : RevEnv := ⟨fun _ => false⟩

/-- An environment where every download succeeds. -/
def envAllDl : RevEnv := ⟨fun _ => true⟩

/-- C3, witness: on a markup with two image references, an all-failures run
returns the input text verbatim with count zero. -/
theorem C3_zero_success_is_identity_witness :
    download_images_from_storage envNoDl
        (cs "x ![a](http://h/i.png) <img src=\"http://h/j.png\" alt=\"b\">")
      = (cs "x ![a](http://h/i.png) <img src=\"http://h/j.png\" alt=\"b\">", 0) :=
  (C3_zero_success_is_identity envNoDl _).2 (fun _ _ => rfl)

theorem fwdStep_allOk (bk : StorageBackend) (a t : Chars) (n : Nat)
    (k : Nat → Except Unit (Chars × Nat × List Chars)) :
    fwdStep bk envAllOk a t n k =
      match k (n + 1) with
      | .ok (out, n', ups) =>
        .ok (imgTagText
            (bk.get_url (cs "images/" ++ genUuid n ++ suffixChars (basenameChars t))) a ++ out,
          n', (cs "images/" ++ genUuid n ++ suffixChars (basenameChars t)) :: ups)
      | .error e => .error e := rfl

/-- C2, amended: rewriting is not one collapsed replacement per distinct
target.  Forward relocation substitutes each regex match independently with
a freshly drawn key: a markup with the same target in two inline references
uploads two distinct objects and rewrites the two occurrences to two
distinct URLs, each keeping its own alt text.  Reverse relocation, by
contrast, rewrites by exact-substring replacement of the target: with one
URL in two raw-tag references, the first successful download rewrites every
occurrence to the same single local path (the duplicate entry is downloaded
again but changes nothing further), each occurrence keeping its own alt
text. -/
theorem C2_rewriting_per_occurrence :
    (∀ (bk : StorageBackend) (a1 a2 t : Chars),
      ']' ∉ a1 → ']' ∉ a2 → ')' ∉ t → t ≠ [] →
      fwdSub bk envAllOk (mdImageText a1 t ++ mdImageText a2 t) 0
        = .ok (imgTagText
              (bk.get_url (cs "images/" ++ genUuid 0 ++ suffixChars (basenameChars t))) a1
            ++ imgTagText
              (bk.get_url (cs "images/" ++ genUuid 1 ++ suffixChars (basenameChars t))) a2,
            2,
            [cs "images/" ++ genUuid 0 ++ suffixChars (basenameChars t),
             cs "images/" ++ genUuid 1 ++ suffixChars (basenameChars t)])
      ∧ cs "images/" ++ genUuid 0 ++ suffixChars (basenameChars t)
          ≠ cs "images/" ++ genUuid 1 ++ suffixChars (basenameChars t))
    ∧ download_images_from_storage envAllDl
        (imgTagText (cs "http://h/y.png") (cs "p") ++ imgTagText (cs "http://h/y.png") (cs "q"))
      = (imgTagText (cs "images/y.png") (cs "p")
          ++ imgTagText (cs "images/y.png") (cs "q"), 2) := by
  constructor
  · intro bk a1 a2 t ha1 ha2 ht hne
    constructor
    · have e3 : fwdSub bk envAllOk [] 2 = .ok ([], 2, []) := fwdSubF_nil bk envAllOk 0 2
      have e2 := fwdSub_match_step bk envAllOk a2 t [] 1 ha2 ht hne
      rw [List.append_nil] at e2
      have e4 : fwdSub bk envAllOk (mdImageText a2 t) 1
          = .ok (imgTagText
              (bk.get_url (cs "images/" ++ genUuid 1 ++ suffixChars (basenameChars t))) a2,
            2, [cs "images/" ++ genUuid 1 ++ suffixChars (basenameChars t)]) := by
        rw [e2, fwdStep_allOk, e3]
        simp
      rw [fwdSub_match_step bk envAllOk a1 t _ 0 ha1 ht hne, fwdStep_allOk, e4]
    · intro hcontra
      have h1 := List.append_cancel_right hcontra
      have h2 := List.append_cancel_left h1
      have : genUuid 0 ≠ genUuid 1 := by decide
      exact this h2
  · decide

/-- C2, witness for the amended theorem, instantiating the forward part at
two inline references to the same existing file. -/
theorem C2_rewriting_per_occurrence_witness :
    fwdSub bkSample envAllOk
        (mdImageText (cs "a") (cs "x.png") ++ mdImageText (cs "b") (cs "x.png")) 0
      = .ok (imgTagText (bkSample.get_url (cs "images/"
            ++ genUuid 0 ++ suffixChars (basenameChars (cs "x.png")))) (cs "a")
          ++ imgTagText (bkSample.get_url (cs "images/"
            ++ genUuid 1 ++ suffixChars (basenameChars (cs "x.png")))) (cs "b"),
          2,
          [cs "images/" ++ genUuid 0 ++ suffixChars (basenameChars (cs "x.png")),
           cs "images/" ++ genUuid 1 ++ suffixChars (basenameChars (cs "x.png"))]) :=
  ((C2_rewriting_per_occurrence.1 bkSample (cs "a") (cs "b") (cs "x.png")
    (by decide) (by decide) (by decide) (by decide)).1)

/-- C2, counterexample: with the same target `x.png` in two inline
references, forward relocation uploads two objects (not one) and rewrites
the two occurrences to two different URLs (not one), each keeping its alt
text; and the rewriting pass is not idempotent: on a markup whose alt text
contains `![`, running the pass on its own output rewrites again. -/
theorem C2_counterexample :
    (process_markdown_images true (some bkSample) envAllOk
        (cs "![a](x.png)![b](x.png)")).2.length = 2
    ∧ process_markdown_images true (some bkSample) envAllOk (cs "![a](x.png)![b](x.png)")
      = (imgTagText (bkSample.get_url (cs "images/uuid-0.png")) (cs "a")
          ++ imgTagText (bkSample.get_url (cs "images/uuid-1.png")) (cs "b"),
         [cs "images/uuid-0.png", cs "images/uuid-1.png"])
    ∧ bkSample.get_url (cs "images/uuid-0.png") ≠ bkSample.get_url (cs "images/uuid-1.png")
    ∧ (process_markdown_images true (some bkSample) envAllOk
        ((process_markdown_images true (some bkSample) envAllOk
          (cs "![![q](x.png)](u.png)")).1)).1
      ≠ (process_markdown_images true (some bkSample) envAllOk
          (cs "![![q](x.png)](u.png)")).1 := by
  refine ⟨by decide, by decide, by decide, by decide⟩

/-- Split at the first occurrence of a non-empty separator string: the part
before it and the part after it, or `none` when it does not occur (models
`sep in s` together with the first field of `s.split(sep)`). -/
def splitOnceStr (sep : Chars) : Chars → Option (Chars × Chars)
  | [] => none
  | c :: tl =>
    match dropLit sep (c :: tl) with
    | some rest => some ([], rest)
    | none =>
      match splitOnceStr sep tl with
      | some (a, b) => some (c :: a, b)
      | none => none

/-- Whether a non-empty separator occurs as a substring (`sep in s`). -/
def occursIn (sep l : Chars) : Bool := (splitOnceStr sep l).isSome

/-- `parse_oss_url(url)` of the test clients: when the URL's hostname
contains `.oss-`, split the hostname on `.oss-` and return
(bucket, endpoint, object key): the bucket is the part before the first
occurrence, the endpoint is `oss-` plus the part between the first and the
second occurrence (Python's `hostname.split('.oss-')[1]`), and the object
key is the URL path with its leading slashes stripped; `none` otherwise
(the Python `(None, None, None)`). -/
def parse_oss_url (url : Chars) : Option (Chars × Chars × Chars) :=
  match splitOnceStr (cs ".oss-") (urlHostname url) with
  | none => none
  | some (bucket, after) =>
    let part1 :=
      match splitOnceStr (cs ".oss-") after with
      | some (a, _) => a
      | none => after
    some (bucket, cs "oss-" ++ part1, (urlPath url).dropWhile (fun c => c = '/'))

example : parse_oss_url (cs "https://mybkt.oss-cn-x.aliyuncs.com/a/b.png")
    = some (cs "mybkt", cs "oss-cn-x.aliyuncs.com", cs "a/b.png") := by decide
example : parse_oss_url (cs "https://h.example.com/a.png") = none := by decide
example : parse_oss_url (cs "https://a@b.oss-x.com:9000/k")
    = some (cs "b", cs "oss-x.com", cs "k") := by decide

theorem occursIn_cons (sep : Chars) (c : Char) (bs : Chars)
    (h : occursIn sep bs = true) : occursIn sep (c :: bs) = true := by
  unfold occursIn at h ⊢
  rw [splitOnceStr]
  cases hd : dropLit sep (c :: bs) with
  | some rest => simp
  | none =>
    cases hs : splitOnceStr sep bs with
    | none => rw [hs] at h; simp at h
    | some p => obtain ⟨a, b⟩ := p; simp

theorem occursIn_append_right (sep : Chars) :
    ∀ (pre t : Chars), occursIn sep t = true → occursIn sep (pre ++ t) = true := by
  intro pre
  induction pre with
  | nil => intro t h; exact h
  | cons c ps ih => intro t h; exact occursIn_cons sep c (ps ++ t) (ih t h)

theorem takeWhile_all (p : Char → Bool) :
    ∀ l : Chars, (∀ c ∈ l, p c = true) → l.takeWhile p = l := by
  intro l
  induction l with
  | nil => intro _; rfl
  | cons c tl ih =>
    intro h
    rw [List.takeWhile_cons, h c (by simp), ih (fun d hd => h d (by simp [hd]))]
    simp

theorem mem_takeWhile_imp (p : Char → Bool) :
    ∀ (l : Chars) (c : Char), c ∈ l.takeWhile p → c ∈ l := by
  intro l
  induction l with
  | nil => intro c hc; simp [List.takeWhile] at hc
  | cons d tl ih =>
    intro c hc
    rw [List.takeWhile_cons] at hc
    by_cases hd : p d
    · rw [if_pos hd] at hc
      rcases List.mem_cons.mp hc with h | h
      · simp [h]
      · simp [ih c h]
    · rw [if_neg hd] at hc
      simp at hc

theorem takeWhile_append_stop (p : Char → Bool) :
    ∀ (xs : Chars) (y : Char) (ys : Chars), (∀ c ∈ xs, p c = true) → p y = false →
      (xs ++ y :: ys).takeWhile p = xs := by
  intro xs
  induction xs with
  | nil =>
    intro y ys _ hy
    rw [List.nil_append, List.takeWhile_cons, hy]
    simp
  | cons c xs ih =>
    intro y ys hall hy
    rw [List.cons_append, List.takeWhile_cons, hall c (by simp), if_pos rfl,
      ih y ys (fun d hd => hall d (by simp [hd])) hy]

theorem dropWhile_append_stop (p : Char → Bool) :
    ∀ (xs : Chars) (y : Char) (ys : Chars), (∀ c ∈ xs, p c = true) → p y = false →
      (xs ++ y :: ys).dropWhile p = y :: ys := by
  intro xs
  induction xs with
  | nil =>
    intro y ys _ hy
    rw [List.nil_append, List.dropWhile_cons, hy]
    simp
  | cons c xs ih =>
    intro y ys hall hy
    rw [List.cons_append, List.dropWhile_cons, hall c (by simp), if_pos rfl,
      ih y ys (fun d hd => hall d (by simp [hd])) hy]

theorem afterLastAt_no_at (l : Chars) (h : '@' ∉ l) : afterLastAt l = l := by
  unfold afterLastAt
  rw [takeWhile_all _ l.reverse (fun c hc => by
    have hc2 : c ∈ l := List.mem_reverse.mp hc
    have hne : c ≠ '@' := fun e => h (e ▸ hc2)
    simp [hne]), List.reverse_reverse]

theorem stripParams_no_semi (p : Chars) (h : ';' ∉ p) : stripParams p = p := by
  have hseg : (lastSeg p).takeWhile (fun c => ¬(c = ';')) = lastSeg p := by
    apply takeWhile_all
    intro c hc
    have h1 : c ∈ p.reverse.takeWhile (fun c => ¬(c = '/')) := List.mem_reverse.mp hc
    have h2 : c ∈ p.reverse := mem_takeWhile_imp _ _ _ h1
    have hc2 : c ∈ p := List.mem_reverse.mp h2
    have hne : c ≠ ';' := fun e => h (e ▸ hc2)
    simp [hne]
  unfold stripParams
  rw [hseg]
  unfold beforeLastSeg lastSeg
  rw [← List.reverse_append, List.takeWhile_append_dropWhile, List.reverse_reverse]

theorem ossSep_chars : cs ".oss-" = ['.', 'o', 's', 's', '-'] := by decide

/-- At a position inside the bucket part of a hostname `bucket ++ "." ++
"oss-" ++ tail`, the separator `.oss-` cannot match unless it occurs inside
the bucket itself: a match spilling over the junction dot would need one of
`o`, `s`, `-` to equal `.`. -/
theorem no_head_match_oss (c : Char) (bs E : Chars)
    (hocc : occursIn (cs ".oss-") (c :: bs) = false) :
    dropLit (cs ".oss-") ((c :: bs) ++ '.' :: E) = none := by
  cases hd : dropLit (cs ".oss-") ((c :: bs) ++ '.' :: E) with
  | none => rfl
  | some r =>
    exfalso
    rw [dropLit_eq_some, ossSep_chars] at hd
    match bs, hd with
    | [], hd => simp at hd
    | [b1], hd => simp at hd
    | [b1, b2], hd => simp at hd
    | [b1, b2, b3], hd => simp at hd
    | b1 :: b2 :: b3 :: b4 :: bs', hd =>
      simp only [List.cons_append, List.cons.injEq] at hd
      obtain ⟨rfl, rfl, rfl, rfl, rfl, _⟩ := hd
      rw [occursIn, splitOnceStr, ossSep_chars] at hocc
      simp only [dropLit] at hocc
      simp at hocc

theorem splitOnceStr_junction (bucket tail : Chars)
    (hocc : occursIn (cs ".oss-") bucket = false) :
    splitOnceStr (cs ".oss-") (bucket ++ '.' :: (cs "oss-" ++ tail)) = some (bucket, tail) := by
  induction bucket with
  | nil =>
    show splitOnceStr (cs ".oss-") ('.' :: (cs "oss-" ++ tail)) = some ([], tail)
    rw [splitOnceStr]
    have e : ('.' :: (cs "oss-" ++ tail) : Chars) = cs ".oss-" ++ tail := by
      rw [ossSep_chars]
      rfl
    rw [e, dropLit_self_append]
  | cons c bs ih =>
    have hocc' : occursIn (cs ".oss-") bs = false := by
      cases hb : occursIn (cs ".oss-") bs with
      | false => rfl
      | true => rw [occursIn_cons _ c bs hb] at hocc; simp at hocc
    show splitOnceStr (cs ".oss-") (c :: (bs ++ '.' :: (cs "oss-" ++ tail)))
        = some (c :: bs, tail)
    rw [splitOnceStr]
    rw [show (c :: (bs ++ '.' :: (cs "oss-" ++ tail)) : Chars)
        = (c :: bs) ++ '.' :: (cs "oss-" ++ tail) from rfl,
      no_head_match_oss c bs _ hocc]
    rw [ih hocc']

theorem charsLower_append_dot (B E : Chars) :
    charsLower (B ++ '.' :: E) = charsLower B ++ '.' :: charsLower E := by
  simp [charsLower, (by decide : Char.toLower '.' = '.')]

/-- The environment variables consulted by `create_storage_backend`.  A
variable read with `os.getenv(name, '')` is modelled as its value, with the
empty string for an unset variable (Python's falsiness check `all([...])`
only distinguishes empty from non-empty); the two variables with non-empty
defaults keep an explicit unset state. -/
structure EnvVars where
  STORAGE_TYPE : Option Chars
  MINIO_ENDPOINT : Chars
  MINIO_ACCESS_KEY : Chars
  MINIO_SECRET_KEY : Chars
  MINIO_BUCKET : Chars
  MINIO_SECURE : Option Chars
  OSS_ENDPOINT : Chars
  OSS_ACCESS_KEY : Chars
  OSS_SECRET_KEY : Chars
  OSS_BUCKET : Chars
deriving DecidableEq

/-- `api_server.create_storage_backend()`: select the backend variant from
`STORAGE_TYPE` (default `minio`, lowercased) and build it from the
per-provider endpoint/credentials/bucket variables, returning `none` when
any of the four required settings is empty or the storage type is unknown.
Import and constructor failures, which also yield `None` in the source, are
outside this model. -/
def create_storage_backend (env : EnvVars) : Option StorageBackend :=
  let storage_type := charsLower (env.STORAGE_TYPE.getD (cs "minio"))
  if storage_type = cs "minio" ∨ storage_type = cs "cos" then
    if env.MINIO_ENDPOINT = [] ∨ env.MINIO_ACCESS_KEY = [] ∨
        env.MINIO_SECRET_KEY = [] ∨ env.MINIO_BUCKET = [] then none
    else
      some (.minio ⟨env.MINIO_ENDPOINT, env.MINIO_ACCESS_KEY, env.MINIO_SECRET_KEY,
        env.MINIO_BUCKET, charsLower (env.MINIO_SECURE.getD (cs "true")) = cs "true"⟩)
  else if storage_type = cs "oss" then
    if env.OSS_ENDPOINT = [] ∨ env.OSS_ACCESS_KEY = [] ∨
        env.OSS_SECRET_KEY = [] ∨ env.OSS_BUCKET = [] then none
    else
      some (.oss ⟨env.OSS_ENDPOINT, env.OSS_ACCESS_KEY, env.OSS_SECRET_KEY, env.OSS_BUCKET⟩)
  else none

/-- C9: the factory returns `none` whenever a required setting of the
selected provider family is missing or the storage type is unknown; and
with no backend configured, a request that asks for image upload returns
the markup unchanged (and uploads nothing) — a missing backend disables the
feature instead of failing the request. -/
theorem C9_incomplete_config_disables_upload (env : EnvVars) :
    ((charsLower (env.STORAGE_TYPE.getD (cs "minio")) = cs "minio"
        ∨ charsLower (env.STORAGE_TYPE.getD (cs "minio")) = cs "cos") →
      (env.MINIO_ENDPOINT = [] ∨ env.MINIO_ACCESS_KEY = [] ∨
        env.MINIO_SECRET_KEY = [] ∨ env.MINIO_BUCKET = []) →
      create_storage_backend env = none)
    ∧ (charsLower (env.STORAGE_TYPE.getD (cs "minio")) = cs "oss" →
      (env.OSS_ENDPOINT = [] ∨ env.OSS_ACCESS_KEY = [] ∨
        env.OSS_SECRET_KEY = [] ∨ env.OSS_BUCKET = []) →
      create_storage_backend env = none)
    ∧ (¬(charsLower (env.STORAGE_TYPE.getD (cs "minio")) = cs "minio"
        ∨ charsLower (env.STORAGE_TYPE.getD (cs "minio")) = cs "cos"
        ∨ charsLower (env.STORAGE_TYPE.getD (cs "minio")) = cs "oss") →
      create_storage_backend env = none)
    ∧ (∀ (fenv : FwdEnv) (md : Chars),
      process_markdown_images true none fenv md = (md, [])) := by
  refine ⟨?_, ?_, ?_, ?_⟩
  · intro hty hmiss
    unfold create_storage_backend
    rw [if_pos hty, if_pos hmiss]
  · intro hty hmiss
    unfold create_storage_backend
    have hne : ¬(charsLower (env.STORAGE_TYPE.getD (cs "minio")) = cs "minio"
        ∨ charsLower (env.STORAGE_TYPE.getD (cs "minio")) = cs "cos") := by
      rw [hty]
      decide
    rw [if_neg hne, if_pos hty, if_pos hmiss]
  · intro hty
    push_neg at hty
    obtain ⟨h1, h2, h3⟩ := hty
    unfold create_storage_backend
    rw [if_neg (by rw [not_or]; exact ⟨h1, h2⟩), if_neg h3]
  · intro fenv md
    rfl

/-- C9, witness: a MinIO configuration missing its secret key yields no
backend, an unknown storage type yields no backend, and with no backend the
upload-requesting status query leaves a concrete markup unchanged. -/
theorem C9_incomplete_config_disables_upload_witness :
    create_storage_backend
        ⟨some (cs "minio"), cs "ep", cs "ak", [], cs "bkt", none, [], [], [], []⟩ = none
    ∧ create_storage_backend
        ⟨some (cs "s3"), cs "ep", cs "ak", cs "sk", cs "bkt", none,
          cs "e", cs "a", cs "s", cs "b"⟩ = none
    ∧ process_markdown_images true none envAllOk (cs "![a](x.png)") = (cs "![a](x.png)", []) :=
  ⟨(C9_incomplete_config_disables_upload _).1 (by decide) (by decide),
   (C9_incomplete_config_disables_upload _).2.2.1 (by decide),
   (C9_incomplete_config_disables_upload
      ⟨some (cs "minio"), cs "ep", cs "ak", [], cs "bkt", none, [], [], [], []⟩).2.2.2
      envAllOk (cs "![a](x.png)")⟩

/-- One status-poll observation: a transport-level failure (a raised
network error for the aiohttp clients, a non-200 response for the RunPod
handler's loop), or a status snapshot carrying the status string and the
error-message field. -/
inductive PollEvent where
  | transportErr
  | snap (status : Chars) (errMsg : Chars)
deriving DecidableEq

/-- Outcome of `TianshuClient.wait_for_task`: the result value, or which
exception escapes. -/
inductive TWaitOutcome where
  | completed
  | taskFailed (msg : Chars)
  | cancelled
  | timedOut
  | transportAbort
deriving DecidableEq

/-- `TianshuClient.wait_for_task` (identical in `test_auto_upload_images.py`
and `test_full_oss_workflow.py`): poll while `elapsed < timeout`, raising on
status `failed` or `cancelled` and `TimeoutError` after the poll budget.
The i-th poll's observation is `trace i` and the number of polls the budget
allows (`ceil(timeout / poll_interval)`) is the fuel.  The poll call is not
wrapped in any try, so a raised transport error propagates out of the loop
at once (`transportAbort`). -/
def wait_for_task (trace : Nat → PollEvent) : Nat → Nat → TWaitOutcome
  | _, 0 => .timedOut
  | i, fuel + 1 =>
    match trace i with
    | .transportErr => .transportAbort
    | .snap st msg =>
      if st = cs "completed" then .completed
      else if st = cs "failed" then .taskFailed msg
      else if st = cs "cancelled" then .cancelled
      else wait_for_task trace (i + 1) fuel

/-- Outcome of `RunPodClient.wait_for_completion`: a returned status
snapshot, or the synthesized TIMEOUT dictionary. -/
inductive RPWaitOutcome where
  | snapshot (status : Chars)
  | timedOut
deriving DecidableEq

/-- `RunPodClient.wait_for_completion` of `runpod_client_complete.py`: the
poll body is wrapped in try/except, so a transport error is logged and the
loop sleeps and retries on the next interval; it returns the snapshot on
`COMPLETED` and also on `FAILED` (no exception is raised); any other status
just continues; on expiry of the budget it returns a TIMEOUT marker. -/
def wait_for_completion (trace : Nat → PollEvent) : Nat → Nat → RPWaitOutcome
  | _, 0 => .timedOut
  | i, fuel + 1 =>
    match trace i with
    | .transportErr => wait_for_completion trace (i + 1) fuel
    | .snap st _ =>
      if st = cs "COMPLETED" then .snapshot st
      else if st = cs "FAILED" then .snapshot st
      else wait_for_completion trace (i + 1) fuel

/-- The polling loop of `MinerURunPodHandler.submit_task_to_api`
(runpod_handler.py:136-170): raises `RuntimeError` on a non-200 status
response, on status `failed` (with the remote message), and on any status
other than `pending`/`processing` — including `cancelled`; raises a timeout
error when the wait budget is exhausted.  The ok value stands for the
converted completed snapshot. -/
def handlerPoll (trace : Nat → PollEvent) : Nat → Nat → Except Chars Chars
  | _, 0 => .error (cs "Task timeout")
  | i, fuel + 1 =>
    match trace i with
    | .transportErr => .error (cs "Status check failed")
    | .snap st msg =>
      if st = cs "completed" then .ok st
      else if st = cs "failed" then .error (cs "Task failed: " ++ msg)
      else if st = cs "pending" ∨ st = cs "processing" then handlerPoll trace (i + 1) fuel
      else .error (cs "Unknown task status: " ++ st)

/-- C6, amended: the three wait implementations do not share one state
machine.  `wait_for_task` fails TaskFailed with the remote message on
`failed`, Cancelled on `cancelled` and Timeout on budget expiry, but a
transport error during any poll aborts it at once (no retry).
`wait_for_completion` retries transport errors every interval up to the
overall timeout (an all-errors run times out rather than aborting), and
returns the FAILED snapshot instead of failing.  The handler's loop aborts
on a transport error and treats `cancelled` as an unknown status error. -/
theorem C6_pollers_diverge :
    (∀ (trace : Nat → PollEvent) (i fuel : Nat) (msg : Chars),
      (trace i = .transportErr → wait_for_task trace i (fuel + 1) = .transportAbort)
      ∧ (trace i = .snap (cs "failed") msg →
          wait_for_task trace i (fuel + 1) = .taskFailed msg)
      ∧ (trace i = .snap (cs "cancelled") msg →
          wait_for_task trace i (fuel + 1) = .cancelled)
      ∧ wait_for_task trace i 0 = .timedOut)
    ∧ (∀ (trace : Nat → PollEvent) (i fuel : Nat) (msg : Chars),
      (trace i = .transportErr →
        wait_for_completion trace i (fuel + 1) = wait_for_completion trace (i + 1) fuel)
      ∧ (trace i = .snap (cs "FAILED") msg →
        wait_for_completion trace i (fuel + 1) = .snapshot (cs "FAILED")))
    ∧ (∀ (trace : Nat → PollEvent) (i fuel : Nat),
      (∀ j, trace j = .transportErr) → wait_for_completion trace i fuel = .timedOut)
    ∧ (∀ (trace : Nat → PollEvent) (i fuel : Nat) (msg : Chars),
      (trace i = .transportErr →
        handlerPoll trace i (fuel + 1) = .error (cs "Status check failed"))
      ∧ (trace i = .snap (cs "cancelled") msg →
        handlerPoll trace i (fuel + 1) = .error (cs "Unknown task status: " ++ cs "cancelled"))) := by
  refine ⟨?_, ?_, ?_, ?_⟩
  · intro trace i fuel msg
    refine ⟨fun h => ?_, fun h => ?_, fun h => ?_, rfl⟩
    · show (match trace i with
        | .transportErr => TWaitOutcome.transportAbort
        | .snap st msg =>
          if st = cs "completed" then .completed
          else if st = cs "failed" then .taskFailed msg
          else if st = cs "cancelled" then .cancelled
          else wait_for_task trace (i + 1) fuel) = .transportAbort
      rw [h]
    · show (match trace i with
        | .transportErr => TWaitOutcome.transportAbort
        | .snap st msg =>
          if st = cs "completed" then .completed
          else if st = cs "failed" then .taskFailed msg
          else if st = cs "cancelled" then .cancelled
          else wait_for_task trace (i + 1) fuel) = .taskFailed msg
      rw [h]
      show (if cs "failed" = cs "completed" then TWaitOutcome.completed
        else if cs "failed" = cs "failed" then .taskFailed msg
        else if cs "failed" = cs "cancelled" then .cancelled
        else wait_for_task trace (i + 1) fuel) = .taskFailed msg
      rw [if_neg (by decide), if_pos rfl]
    · show (match trace i with
        | .transportErr => TWaitOutcome.transportAbort
        | .snap st msg =>
          if st = cs "completed" then .completed
          else if st = cs "failed" then .taskFailed msg
          else if st = cs "cancelled" then .cancelled
          else wait_for_task trace (i + 1) fuel) = .cancelled
      rw [h]
      show (if cs "cancelled" = cs "completed" then TWaitOutcome.completed
        else if cs "cancelled" = cs "failed" then .taskFailed msg
        else if cs "cancelled" = cs "cancelled" then .cancelled
        else wait_for_task trace (i + 1) fuel) = .cancelled
      rw [if_neg (by decide), if_neg (by decide), if_pos rfl]
  · intro trace i fuel msg
    refine ⟨fun h => ?_, fun h => ?_⟩
    · show (match trace i with
        | .transportErr => wait_for_completion trace (i + 1) fuel
        | .snap st _ =>
          if st = cs "COMPLETED" then RPWaitOutcome.snapshot st
          else if st = cs "FAILED" then .snapshot st
          else wait_for_completion trace (i + 1) fuel) = wait_for_completion trace (i + 1) fuel
      rw [h]
    · show (match trace i with
        | .transportErr => wait_for_completion trace (i + 1) fuel
        | .snap st _ =>
          if st = cs "COMPLETED" then RPWaitOutcome.snapshot st
          else if st = cs "FAILED" then .snapshot st
          else wait_for_completion trace (i + 1) fuel) = .snapshot (cs "FAILED")
      rw [h]
      show (if cs "FAILED" = cs "COMPLETED" then RPWaitOutcome.snapshot (cs "FAILED")
        else if cs "FAILED" = cs "FAILED" then .snapshot (cs "FAILED")
        else wait_for_completion trace (i + 1) fuel) = .snapshot (cs "FAILED")
      rw [if_neg (by decide), if_pos rfl]
  · intro trace i fuel
    induction fuel generalizing i with
    | zero => intro _; rfl
    | succ fuel ih =>
      intro hall
      show (match trace i with
        | .transportErr => wait_for_completion trace (i + 1) fuel
        | .snap st _ =>
          if st = cs "COMPLETED" then RPWaitOutcome.snapshot st
          else if st = cs "FAILED" then .snapshot st
          else wait_for_completion trace (i + 1) fuel) = .timedOut
      rw [hall i]
      exact ih (i + 1) hall
  · intro trace i fuel msg
    refine ⟨fun h => ?_, fun h => ?_⟩
    · show (match trace i with
        | .transportErr => Except.error (cs "Status check failed")
        | .snap st msg =>
          if st = cs "completed" then Except.ok st
          else if st = cs "failed" then .error (cs "Task failed: " ++ msg)
          else if st = cs "pending" ∨ st = cs "processing" then handlerPoll trace (i + 1) fuel
          else .error (cs "Unknown task status: " ++ st)) = .error (cs "Status check failed")
      rw [h]
    · show (match trace i with
        | .transportErr => Except.error (cs "Status check failed")
        | .snap st msg =>
          if st = cs "completed" then Except.ok st
          else if st = cs "failed" then .error (cs "Task failed: " ++ msg)
          else if st = cs "pending" ∨ st = cs "processing" then handlerPoll trace (i + 1) fuel
          else .error (cs "Unknown task status: " ++ st))
        = .error (cs "Unknown task status: " ++ cs "cancelled")
      rw [h]
      show (if cs "cancelled" = cs "completed" then Except.ok (cs "cancelled")
        else if cs "cancelled" = cs "failed" then .error (cs "Task failed: " ++ msg)
        else if cs "cancelled" = cs "pending" ∨ cs "cancelled" = cs "processing" then
          handlerPoll trace (i + 1) fuel
        else .error (cs "Unknown task status: " ++ cs "cancelled"))
        = .error (cs "Unknown task status: " ++ cs "cancelled")
      rw [if_neg (by decide), if_neg (by decide), if_neg (by decide)]

/-- C6, witness for the amended theorem. -/
theorem C6_pollers_diverge_witness :
    wait_for_task (fun _ => .snap (cs "failed") (cs "err")) 0 3 = .taskFailed (cs "err")
    ∧ wait_for_completion (fun _ => .transportErr) 0 7 = .timedOut
    ∧ handlerPoll (fun _ => .snap (cs "cancelled") []) 2 4
      = .error (cs "Unknown task status: " ++ cs "cancelled") :=
  ⟨(C6_pollers_diverge.1 (fun _ => .snap (cs "failed") (cs "err")) 0 2 (cs "err")).2.1 rfl,
   C6_pollers_diverge.2.2.1 (fun _ => .transportErr) 0 7 (fun _ => rfl),
   (C6_pollers_diverge.2.2.2 (fun _ => .snap (cs "cancelled") []) 2 3 []).2 rfl⟩

/-- C6, counterexample: the callers do not implement the same state
machine.  On a trace whose first poll is a transport error and whose second
reports completion, `wait_for_task` aborts at once while
`wait_for_completion` retries and returns the completed snapshot, and the
handler's loop aborts too; the handler turns status `cancelled` into an
"Unknown task status" error instead of a Cancelled outcome; and
`wait_for_completion` returns the FAILED snapshot instead of failing with
the remote message. -/
theorem C6_counterexample :
    wait_for_task (fun i => if i = 0 then .transportErr else .snap (cs "completed") []) 0 5
      = .transportAbort
    ∧ wait_for_completion
        (fun i => if i = 0 then .transportErr else .snap (cs "COMPLETED") []) 0 5
      = .snapshot (cs "COMPLETED")
    ∧ handlerPoll (fun i => if i = 0 then .transportErr else .snap (cs "completed") []) 0 5
      = .error (cs "Status check failed")
    ∧ handlerPoll (fun _ => .snap (cs "cancelled") []) 0 5
      = .error (cs "Unknown task status: " ++ cs "cancelled")
    ∧ wait_for_completion (fun _ => .snap (cs "FAILED") (cs "boom")) 0 5
      = .snapshot (cs "FAILED") := by
  refine ⟨by decide, by decide, by decide, by decide, by decide⟩

/-- `MinerURunPodHandler.submit_task_to_api`: submit the task (a non-200 or
transport failure raises, modelled by `none`; a 200 response without a
`task_id` raises), then run the polling loop.  The ok value stands for the
result converted from the completed snapshot. -/
def submit_task_to_api (submitResult : Option (Option Chars)) (trace : Nat → PollEvent)
    (fuel : Nat) : Except Chars Chars :=
  match submitResult with
  | none => .error (cs "API submission failed")
  | some none => .error (cs "No task_id returned from API")
  | some (some _) => handlerPoll trace 0 fuel

/-- The envelope `process_task` returns to the RunPod host. -/
structure RunPodEnvelope where
  success : Bool
  error : Option Chars
  content : Option Chars
  processing_time : Nat
deriving DecidableEq

/-- `MinerURunPodHandler.process_task(event)`: validate `object_name`,
submit and await via `submit_task_to_api`, and translate the outcome; the
whole body is inside `try`, and the `except` clause returns a failure
envelope with `success: False`, the exception's message, and the elapsed
processing time (`elapsed` models `time.time() - start_time`). -/
def process_task (object_name : Option Chars) (submitResult : Option (Option Chars))
    (trace : Nat → PollEvent) (fuel : Nat) (elapsed : Nat) : RunPodEnvelope :=
  match object_name with
  | none => ⟨false, some (cs "object_name is required"), none, elapsed⟩
  | some _ =>
    match submit_task_to_api submitResult trace fuel with
    | .error e => ⟨false, some e, none, elapsed⟩
    | .ok c => ⟨true, none, some c, elapsed⟩

theorem handlerPoll_ok_imp (trace : Nat → PollEvent) :
    ∀ (fuel i : Nat) (c : Chars), handlerPoll trace i fuel = .ok c →
      ∃ j msg, trace j = .snap (cs "completed") msg := by
  intro fuel
  induction fuel with
  | zero => intro i c h; exact absurd h (by simp [handlerPoll])
  | succ fuel ih =>
    intro i c h
    rw [show handlerPoll trace i (fuel + 1) = (match trace i with
      | .transportErr => Except.error (cs "Status check failed")
      | .snap st msg =>
        if st = cs "completed" then Except.ok st
        else if st = cs "failed" then .error (cs "Task failed: " ++ msg)
        else if st = cs "pending" ∨ st = cs "processing" then handlerPoll trace (i + 1) fuel
        else .error (cs "Unknown task status: " ++ st)) from rfl] at h
    cases ht : trace i with
    | transportErr => rw [ht] at h; exact absurd h (by simp)
    | snap st msg =>
      rw [ht] at h
      simp only at h
      by_cases h1 : st = cs "completed"
      · exact ⟨i, msg, by rw [ht, h1]⟩
      · rw [if_neg h1] at h
        by_cases h2 : st = cs "failed"
        · rw [if_pos h2] at h; exact absurd h (by simp)
        · rw [if_neg h2] at h
          by_cases h3 : st = cs "pending" ∨ st = cs "processing"
          · rw [if_pos h3] at h
            exact ih (i + 1) c h
          · rw [if_neg h3] at h; exact absurd h (by simp)

/-- C7: every envelope `process_task` returns carries the elapsed
processing time; a missing `object_name` and every submission or polling
failure produce a failure envelope (`success = false`) carrying the error
message — nothing propagates, since the function is total into envelopes;
and whenever no poll ever reports a completed snapshot, the returned
envelope is a failure envelope with a message. -/
theorem C7_failures_become_envelopes (object_name : Option Chars)
    (submitResult : Option (Option Chars)) (trace : Nat → PollEvent) (fuel elapsed : Nat) :
    (process_task object_name submitResult trace fuel elapsed).processing_time = elapsed
    ∧ (object_name = none →
      process_task object_name submitResult trace fuel elapsed
        = ⟨false, some (cs "object_name is required"), none, elapsed⟩)
    ∧ (∀ e, submit_task_to_api submitResult trace fuel = .error e →
      ∀ tid, object_name = some tid →
      process_task object_name submitResult trace fuel elapsed
        = ⟨false, some e, none, elapsed⟩)
    ∧ ((∀ j msg, trace j ≠ .snap (cs "completed") msg) →
      (process_task object_name submitResult trace fuel elapsed).success = false
      ∧ ((process_task object_name submitResult trace fuel elapsed).error).isSome = true) := by
  refine ⟨?_, ?_, ?_, ?_⟩
  · cases object_name with
    | none => rfl
    | some tid =>
      show (match submit_task_to_api submitResult trace fuel with
        | .error e => (⟨false, some e, none, elapsed⟩ : RunPodEnvelope)
        | .ok c => ⟨true, none, some c, elapsed⟩).processing_time = elapsed
      cases submit_task_to_api submitResult trace fuel <;> rfl
  · rintro rfl; rfl
  · rintro e he tid rfl
    show (match submit_task_to_api submitResult trace fuel with
      | .error e => (⟨false, some e, none, elapsed⟩ : RunPodEnvelope)
      | .ok c => ⟨true, none, some c, elapsed⟩)
      = ⟨false, some e, none, elapsed⟩
    rw [he]
  · intro hnever
    cases object_name with
    | none => exact ⟨rfl, rfl⟩
    | some tid =>
      have hsub : ∀ c, submit_task_to_api submitResult trace fuel ≠ .ok c := by
        intro c hc
        match submitResult, hc with
        | some (some _), hc =>
          obtain ⟨j, msg, hj⟩ := handlerPoll_ok_imp trace fuel 0 c hc
          exact hnever j msg hj
      show ((match submit_task_to_api submitResult trace fuel with
        | .error e => (⟨false, some e, none, elapsed⟩ : RunPodEnvelope)
        | .ok c => ⟨true, none, some c, elapsed⟩)).success = false
        ∧ ((match submit_task_to_api submitResult trace fuel with
        | .error e => (⟨false, some e, none, elapsed⟩ : RunPodEnvelope)
        | .ok c => ⟨true, none, some c, elapsed⟩)).error.isSome = true
      cases hs : submit_task_to_api submitResult trace fuel with
      | error e => exact ⟨rfl, rfl⟩
      | ok c => exact absurd hs (hsub c)

/-- C7, witness: a failed remote task yields the failure envelope with the
remote message and the elapsed time. -/
theorem C7_failures_become_envelopes_witness :
    process_task (some (cs "doc.pdf")) (some (some (cs "tid")))
        (fun _ => .snap (cs "failed") (cs "boom")) 3 7
      = ⟨false, some (cs "Task failed: " ++ cs "boom"), none, 7⟩ :=
  (C7_failures_become_envelopes (some (cs "doc.pdf")) (some (some (cs "tid")))
      (fun _ => .snap (cs "failed") (cs "boom")) 3 7).2.2.1
    (cs "Task failed: " ++ cs "boom") (by decide) (cs "doc.pdf") rfl
